import Mathlib

/-!
Verification of `packages/api-docs-builder/ApiBuilders/ComponentApiBuilder.ts`.

This file is a shallow embedding of the component-API builder: the pure
computational content of the TypeScript source is translated into executable
Lean definitions (strings are handled as `List Char` where proofs need
structural recursion), and the stated properties of the builder are proved
about those definitions.

External collaborators (react-docgen parsing, `createDescribeableProp`,
`generatePropDescription`, `generatePropTypeDescription`, `renderMarkdown`,
`kebabCase`, prettier/fs plumbing) are not part of the analysed file; they are
modelled as explicit function parameters so that every theorem quantifies over
their behaviour.  The one exception is `getChained`, which is modelled from
the specification because the statements about chained validators cannot be
expressed without it; its doc comment marks it as such.
-/

/-! ## Generic character/string utilities -/

/-- The whitespace class used by `String.prototype.trim` (ASCII fragment;
the Unicode space characters never occur in the inputs considered here). -/
def jsIsWs (c : Char) : Bool :=
  c = ' ' || c = '\t' || c = '\n' || c = '\r' || c = Char.ofNat 11 || c = Char.ofNat 12

/-- `String.prototype.trim`, on the character list. -/
def trimChars (l : List Char) : List Char :=
  (((l.dropWhile jsIsWs).reverse.dropWhile jsIsWs).reverse)

/-- Split a string at the first occurrence of `pat`, returning the part before
the occurrence and the part after it.  `none` when `pat` does not occur. -/
def splitFirst (pat : List Char) : List Char → Option (List Char × List Char)
  | [] => if pat = [] then some ([], []) else none
  | c :: tl =>
    if pat.isPrefixOf (c :: tl) then some ([], (c :: tl).drop pat.length)
    else (splitFirst pat tl).map fun p => (c :: p.1, p.2)

/-- Substring containment, the semantics of an unanchored literal regex test. -/
def containsSub (pat l : List Char) : Bool :=
  (splitFirst pat l).isSome

/-- `Array.prototype.join` / template-literal interleaving with a separator. -/
def joinSep (sep : String) : List String → String
  | [] => ""
  | [x] => x
  | x :: y :: xs => x ++ sep ++ joinSep sep (y :: xs)

/-- Code-point comparison of character lists; stands in for the
`localeCompare`-induced alphabetical order on ASCII prop names. -/
def lexLt : List Char → List Char → Bool
  | [], [] => false
  | [], _ :: _ => true
  | _ :: _, [] => false
  | a :: as, b :: bs => if a = b then lexLt as bs else decide (a.toNat < b.toNat)

/-- `String.prototype.startsWith`. -/
def jsStartsWith (pat s : String) : Bool :=
  pat.data.isPrefixOf s.data

/-- `String.prototype.includes`. -/
def jsIncludes (pat s : String) : Bool :=
  containsSub pat.data s.data

/-- `Array.prototype.indexOf`: index of the first occurrence, `-1` if absent. -/
def jsIndexOf (x : String) : List String → Int
  | [] => -1
  | y :: ys =>
    if y = x then 0
    else if jsIndexOf x ys = -1 then -1 else jsIndexOf x ys + 1

/-- `String.prototype.replace` with a plain-string pattern replaces only the
first occurrence. -/
def replaceFirstStr (pat repl s : String) : String :=
  match splitFirst pat.data s.data with
  | some (pre, post) => ⟨pre ++ repl.data ++ post⟩
  | none => s

/-- Global single-character replacement (the `/x/g` regexes of the source). -/
def replaceAllChar (a b : Char) (s : String) : String :=
  ⟨s.data.map fun c => if c = a then b else c⟩

/-! ## The `(Demos|API):` trailer recogniser

`generateComponentApi` strips a previously generated description trailer with
`description.match(/(Demos|API):\r?\n\r?\n/)` followed by
`description.slice(0, match.index).trim()`.  The regex is compiled by hand:
`matchNl` consumes `\r?\n`, `trailerKeyRest` the `(Demos|API):` alternation,
`trailerIndex` performs the left-to-right scan of `RegExp.prototype.match`. -/

def demosKeyChars : List Char := "Demos:".data

def apiKeyChars : List Char := "API:".data

/-- Consume `\r?\n`. -/
def matchNl (l : List Char) : Option (List Char) :=
  match l with
  | c :: tl =>
    if c = '\r' then
      match tl with
      | c2 :: tl2 => if c2 = '\n' then some tl2 else none
      | [] => none
    else if c = '\n' then some tl else none
  | [] => none

/-- Consume the `(Demos|API):` alternation. -/
def trailerKeyRest (l : List Char) : Option (List Char) :=
  if demosKeyChars.isPrefixOf l then some (l.drop 6)
  else if apiKeyChars.isPrefixOf l then some (l.drop 4)
  else none

/-- Consume `\r?\n\r?\n`. -/
def nlnl (l : List Char) : Bool :=
  match matchNl l with
  | some r2 => (matchNl r2).isSome
  | none => false

/-- Does `/(Demos|API):\r?\n\r?\n/` match at the head of `l`? -/
def trailerAt (l : List Char) : Bool :=
  match trailerKeyRest l with
  | some r => nlnl r
  | none => false

/-- Index of the leftmost match of the trailer regex. -/
def trailerIndex : List Char → Option Nat
  | [] => none
  | c :: tl =>
    if trailerAt (c :: tl) then some 0
    else (trailerIndex tl).map (· + 1)

/-- Lines 754–758 of the source: ignore a previously generated trailer by
slicing the description at the first trailer match and trimming. -/
def stripAnnotatedDescription (d : String) : String :=
  match trailerIndex d.data with
  | some i => ⟨trimChars (d.data.take i)⟩
  | none => d

/-! ## The class-condition pattern of `extractClassConditions`

The source uses the regex
`/((Styles|State class|Class name) applied to )(.*?)(( if | unless | when |, ){1}(.*))?\./`
with `String.prototype.match` (leftmost match, lazy group 3, greedy optional
group 4) and rewrites the match with `$1{{nodeName}}$5{{conditions}}.` resp.
`$1{{nodeName}}$5.`.  The matcher below is that regex compiled by hand, with
JS backtracking priority: shortest target first; at each target the optional
group is tried before the bare literal dot; `.` matches anything except line
terminators. -/

/-- The character class of `.` in a JS regex (no line terminators). -/
def dotOk (c : Char) : Bool :=
  c ≠ '\n' && c ≠ '\r'

def stylesKeyList : List (List Char) :=
  ["Styles".data, "State class".data, "Class name".data]

def stylesSepList : List (List Char) :=
  [" if ".data, " unless ".data, " when ".data, ", ".data]

/-- Greedy `(.*)\.`: split off the longest run of dot-class characters that is
followed by a literal `.`, returning the run and the text after the dot. -/
def greedyDotSplit : List Char → Option (List Char × List Char)
  | [] => none
  | c :: tl =>
    if dotOk c then
      match greedyDotSplit tl with
      | some p => some (c :: p.1, p.2)
      | none => if c = '.' then some ([], tl) else none
    else none

/-- Try the separator alternation `( if | unless | when |, )` followed by the
greedy condition group and the final dot. Returns `(sep, condition, rest)`. -/
def trySepCond (rest : List Char) : Option (List Char × List Char × List Char) :=
  stylesSepList.findSome? fun sep =>
    if sep.isPrefixOf rest then
      match greedyDotSplit (rest.drop sep.length) with
      | some p => some (sep, p.1, p.2)
      | none => none
    else none

/-- The lazy scan for group 3 (`(.*?)`): at each candidate end point first try
the optional group 4, then the bare final dot, then extend the target.
Returns `(target, optional (sep, condition), rest-after-match)`. -/
def scanTarget (acc rest : List Char) :
    Option (List Char × Option (List Char × List Char) × List Char) :=
  match trySepCond rest with
  | some (sep, cond, post) => some (acc, some (sep, cond), post)
  | none =>
    match rest with
    | [] => none
    | c :: tl =>
      if c = '.' then some (acc, none, tl)
      else if dotOk c then scanTarget (acc ++ [c]) tl
      else none

/-- Groups of a match of the styles regex: `g1` is group 1 (the matched
`<kind> applied to ` text), `target` is group 3, `sepCond` groups 5 and 6. -/
structure StylesGroups where
  g1 : List Char
  target : List Char
  sepCond : Option (List Char × List Char)
deriving DecidableEq, Repr

/-- Match the styles regex at the head of `s`. -/
def matchStylesAt (s : List Char) : Option (StylesGroups × List Char) :=
  stylesKeyList.findSome? fun k =>
    let g1 := k ++ " applied to ".data
    if g1.isPrefixOf s then
      (scanTarget [] (s.drop g1.length)).map fun t =>
        ({ g1 := g1, target := t.1, sepCond := t.2.1 }, t.2.2)
    else none

/-- Leftmost match of the styles regex: returns the text before the match,
the groups, and the text after the match. -/
def findStylesMatch (pre s : List Char) : Option (List Char × StylesGroups × List Char) :=
  match matchStylesAt s with
  | some m => some (pre, m.1, m.2)
  | none =>
    match s with
    | [] => none
    | c :: tl => findStylesMatch (pre ++ [c]) tl

/-- The backtick character. -/
def tickChar : Char := Char.ofNat 96

/-- Find the closing backtick of an inline-code span: the lazy `(.*?)` between
the backticks may not cross a line terminator. Returns (inner, rest). -/
def splitAtTick : List Char → Option (List Char × List Char)
  | [] => none
  | c :: tl =>
    if c = tickChar then some ([], tl)
    else if dotOk c then (splitAtTick tl).map fun p => (c :: p.1, p.2)
    else none

/-- ``description.replace(/`(.*?)`/g, '<code>$1</code>')``, fuel-structured so
that it reduces definitionally. -/
def codeTickGo : Nat → List Char → List Char
  | _, [] => []
  | 0, l => l
  | fuel + 1, c :: tl =>
    if c = tickChar then
      match splitAtTick tl with
      | some (inner, rest) =>
        "<code>".data ++ inner ++ "</code>".data ++ codeTickGo fuel rest
      | none => c :: codeTickGo fuel tl
    else c :: codeTickGo fuel tl

def codeTickReplace (s : List Char) : List Char :=
  codeTickGo s.length s

/-- One entry of the `classDescriptions` translation table. -/
structure ClassCond where
  description : String
  conditions : Option String := none
  nodeName : Option String := none
deriving DecidableEq, Repr

/-- Lines 321–351 of the source (`extractClassConditions`), with
`renderMarkdown` abstracted as `rm`.  The three branches mirror
`conditions && conditions[6]`, `conditions && conditions[3] && conditions[3]
!== 'the root element'` and the default; JS truthiness of the captured groups
is the emptiness test. -/
def extractClassConditions (rm : String → String)
    (descriptions : List (String × String)) : List (String × ClassCond) :=
  descriptions.filterMap fun e =>
    let className := e.1
    let description := e.2
    if className = "" then none
    else some (className,
      match findStylesMatch [] description.data with
      | some (pre, g, post) =>
        match g.sepCond with
        | some (sep, cond) =>
          if cond ≠ [] then
            { description := rm ⟨pre ++ g.g1 ++ "\x7b\x7bnodeName\x7d\x7d".data ++ sep ++
                "\x7b\x7bconditions\x7d\x7d".data ++ ['.'] ++ post⟩
              nodeName := some (rm ⟨g.target⟩)
              conditions := some (rm ⟨codeTickReplace cond⟩) }
          else if g.target ≠ [] ∧ g.target ≠ "the root element".data then
            { description := rm ⟨pre ++ g.g1 ++ "\x7b\x7bnodeName\x7d\x7d".data ++ sep ++
                ['.'] ++ post⟩
              nodeName := some (rm ⟨g.target⟩) }
          else { description := rm description }
        | none =>
          if g.target ≠ [] ∧ g.target ≠ "the root element".data then
            { description := rm ⟨pre ++ g.g1 ++ "\x7b\x7bnodeName\x7d\x7d".data ++
                ['.'] ++ post⟩
              nodeName := some (rm ⟨g.target⟩) }
          else { description := rm description }
      | none => { description := rm description })

/-! ## Line splitting and joining (`split('\n')` / `join('\n')`) -/

def splitNl : List Char → List (List Char)
  | [] => [[]]
  | c :: tl =>
    let r := splitNl tl
    if c = '\n' then [] :: r
    else (c :: r.headD []) :: r.tail

def joinLines : List (List Char) → List Char
  | [] => []
  | [l] => l
  | l :: l2 :: ls => l ++ '\n' :: joinLines (l2 :: ls)

/-! ## Prop descriptors and the props table (`attachPropsTable`) -/

/-- Result of unwrapping a chained validator. -/
structure ChainedInfo where
  required : Bool
deriving DecidableEq, Repr

/-- The `type` field of a docgen prop descriptor (`{ name, raw }`), as consumed
by `attachPropsTable`; `chained` carries the chained-wrapper data used by the
spec-modelled `getChained` below. -/
structure PropTypeDescr where
  name : String
  raw : String := ""
  chained : Option ChainedInfo := none
deriving DecidableEq, Repr

/-- Modelled from the spec: `getChained` is defined in
`packages/api-docs-builder/utils/generatePropTypeDescription.ts`, which is not
among the analysed sources.  Per §4.1/§4.3 of the specification it unwraps a
chained/required wrapper validator, exposing the underlying type together
with a derived `required` flag, and returns `false` (here `none`) for
non-chained types.  The unwrap result is carried by the `chained` field. -/
def getChained (t : PropTypeDescr) : Option ChainedInfo :=
  t.chained

/-- The canonical descriptor produced by the external
`createDescribeableProp` (fields used by the analysed file). -/
structure DescribeableProp where
  required : Bool := false
  type : PropTypeDescr
deriving DecidableEq, Repr

/-- A raw docgen prop descriptor (fields used by the analysed file). -/
structure RawProp where
  jsdocDefaultValue : Option String := none
  description : Option String := none
  type : PropTypeDescr
deriving DecidableEq, Repr

/-- One signature argument/return item of `generatePropDescription`. -/
structure SigArg where
  name : String
  description : String := ""
deriving DecidableEq, Repr

/-- Result shape of the external `generatePropDescription`. -/
structure GeneratedDescription where
  deprecated : String := ""
  jsDocText : String := ""
  requiresRef : Bool := false
  signature : Option String := none
  signatureArgs : Option (List SigArg) := none
  signatureReturn : Option SigArg := none
deriving DecidableEq, Repr

/-- The `additionalInfo` capability markers. -/
structure AdditionalPropsInfo where
  cssApi : Bool := false
  sx : Bool := false
  slotsApi : Bool := false
  joySize : Bool := false
  joyColor : Bool := false
  joyVariant : Bool := false
deriving DecidableEq, Repr

/-- The `type` field of one emitted props-table row. -/
structure RowTypeField where
  name : String
  description : Option String
deriving DecidableEq, Repr

/-- The `signature` field of one emitted props-table row. -/
structure RowSignature where
  type : String
  describedArgs : Option (List String) := none
  returned : Option String := none
deriving DecidableEq, Repr

/-- One row of `reactApi.propsTable`.  Fields that the source sets to
`x || undefined` so that `undefined` is dropped from the JSON are kept as the
underlying truthiness value (`required`, `deprecated`). -/
structure PropsTableRow where
  type : RowTypeField
  default : Option String := none
  required : Bool := false
  deprecated : Bool := false
  deprecationInfo : Option String := none
  signature : Option RowSignature := none
  additionalInfo : Option AdditionalPropsInfo := none
deriving DecidableEq, Repr

def deprecatedTagChars : List Char := "@deprecated".data

/-- The regex `/@deprecated(\s+(?<info>.*))?/` applied to a description:
`none` when the tag does not occur; `some none` when it occurs with no
whitespace-led info group; `some (some info)` otherwise (the greedy `\s+`
swallows the whitespace run and `.*` captures to the end of the line). -/
def findDeprecated (desc : List Char) : Option (Option (List Char)) :=
  match splitFirst deprecatedTagChars desc with
  | none => none
  | some p =>
    match p.2 with
    | c :: _ =>
      if jsIsWs c then some (some ((p.2.dropWhile jsIsWs).takeWhile dotOk))
      else some none
    | [] => some none

/-- Lines 578–597 of the source: the `additionalInfo` markers chosen from the
prop name and the normalized api pathname. -/
def additionalPropsInfoFor (normalizedApiPathname propName : String) : AdditionalPropsInfo :=
  if propName = "classes" then { cssApi := true }
  else if propName = "sx" then { sx := true }
  else if propName = "slots" ∧ jsStartsWith "/material-ui" normalizedApiPathname = false then
    { slotsApi := true }
  else if jsStartsWith "/joy-ui" normalizedApiPathname = true then
    if propName = "size" then { joySize := true }
    else if propName = "color" then { joyColor := true }
    else if propName = "variant" then { joyVariant := true }
    else {}
  else {}

/-- The external collaborators of the analysed file, §6 of the specification,
threaded explicitly: every theorem about the builder quantifies over them. -/
structure Externals where
  renderMarkdown : String → String
  createDescribeableProp : RawProp → String → Except String DescribeableProp
  generatePropDescription : DescribeableProp → String → GeneratedDescription
  generatePropTypeDescription : PropTypeDescr → String
  kebabCase : String → String
  toGitHubPath : String → String
  cwd : String := ""
  getComponentImports : String → String → List String := fun _ _ => []
  computeApiDescription : String → String := id

/-- The body of the `Object.entries(reactApi.props!).map` callback of
`attachPropsTable` (lines 557–624) for a prop whose
`createDescribeableProp` succeeded. -/
def buildRow (ext : Externals) (apiPathname propName : String) (pd : RawProp)
    (prop : DescribeableProp) : PropsTableRow :=
  let defaultValue := pd.jsdocDefaultValue
  let gen := ext.generatePropDescription prop propName
  let propTypeDescription := ext.generatePropTypeDescription pd.type
  let chainedPropType := getChained prop.type
  let requiredProp :=
    prop.required || containsSub ".isRequired".data prop.type.raw.data ||
      (match chainedPropType with
       | some c => c.required
       | none => false)
  let deprecation := findDeprecated (pd.description.getD "").data
  let normalizedApiPathname := replaceAllChar '\\' '/' apiPathname
  let additionalPropsInfo := additionalPropsInfoFor normalizedApiPathname propName
  let signature : Option RowSignature :=
    match gen.signature with
    | some st =>
      some { type := st
             describedArgs := gen.signatureArgs.map fun args => args.map (·.name)
             returned := gen.signatureReturn.map (·.name) }
    | none => none
  { type := { name := pd.type.name
              description :=
                if propTypeDescription ≠ pd.type.name then some propTypeDescription else none }
    default := defaultValue
    required := requiredProp
    deprecated := deprecation.isSome
    deprecationInfo :=
      let info : String := match deprecation with
        | some (some i) => ⟨i⟩
        | _ => ""
      let t := trimChars (ext.renderMarkdown info).data
      if t = [] then none else some ⟨t⟩
    signature := signature
    additionalInfo :=
      if additionalPropsInfo = {} then none else some additionalPropsInfo }

/-- The `[${reactApi.name}] \`${propName}\`` tag under which a failing prop is
recorded in `propErrors`. -/
def formatPropRef (componentName propName : String) : String :=
  "[" ++ componentName ++ "] `" ++ propName ++ "`"

/-- One entry of the `Object.entries(reactApi.props!).map` pass: a failed
`createDescribeableProp` is caught and recorded on the error side, a success
yields the built table row. -/
def propEntryResult (ext : Externals) (componentName apiPathname : String)
    (e : String × RawProp) : Sum (String × String) (String × PropsTableRow) :=
  match ext.createDescribeableProp e.2 e.1 with
  | .error err => Sum.inl (formatPropRef componentName e.1, err)
  | .ok prop => Sum.inr (e.1, buildRow ext apiPathname e.1 e.2 prop)

def propErrorOf (x : Sum (String × String) (String × PropsTableRow)) :
    Option (String × String) :=
  match x with
  | .inl p => some p
  | .inr _ => none

def propRowOf (x : Sum (String × String) (String × PropsTableRow)) :
    Option (String × PropsTableRow) :=
  match x with
  | .inr r => some r
  | .inl _ => none

/-- The text of the aggregated error of lines 628–634. -/
def propErrorsMessage (propErrors : List (String × String)) : String :=
  "There were errors creating prop descriptions:\n" ++
    joinSep "\n" (propErrors.map fun p => "  - " ++ p.1 ++ ": Error: " ++ p.2)

/-- Lines 540–641 of the source (`attachPropsTable`): every prop is processed;
a failing `createDescribeableProp` contributes to `propErrors` (and its `[]`
table entry is dropped again, the `delete componentProps.undefined`); a
non-empty `propErrors` aborts the component with one aggregated error.  A
thrown `Error` is rendered by the template literal as `Error: <message>`. -/
def attachPropsTable (ext : Externals) (componentName apiPathname : String)
    (props : List (String × RawProp)) : Except String (List (String × PropsTableRow)) :=
  let processed := props.map (propEntryResult ext componentName apiPathname)
  let propErrors := processed.filterMap propErrorOf
  if propErrors.isEmpty then .ok (processed.filterMap propRowOf)
  else .error (propErrorsMessage propErrors)

/-! ## Sorting of the emitted props table (`generateApiPage`) -/

/-- `localeCompare`, modelled as code-point comparison (ASCII prop names). -/
def localeCompareInt (a b : String) : Int :=
  if lexLt a.data b.data then -1 else if lexLt b.data a.data then 1 else 0

/-- The comparator of lines 416–424 of the source (`Sorted by required DESC,
name ASC`). -/
def propsComparator (a b : String × PropsTableRow) : Int :=
  if (a.2.required && b.2.required) || (!a.2.required && !b.2.required) then
    localeCompareInt a.1 b.1
  else if a.2.required then -1
  else 1

/-- The non-strict order induced by the comparator. -/
def propsSortLe (a b : String × PropsTableRow) : Prop :=
  propsComparator a b ≤ 0

instance : DecidableRel propsSortLe :=
  fun _ _ => Int.decLe _ _

/-- `Object.entries(reactApi.propsTable).sort(comparator)`. -/
def sortedPropEntries (l : List (String × PropsTableRow)) : List (String × PropsTableRow) :=
  List.insertionSort propsSortLe l

/-! ## The API page record (`generateApiPage`) -/

structure Demo where
  demoPageTitle : String
  demoPathname : String
deriving DecidableEq, Repr

structure InheritanceRef where
  name : String
  apiPathname : String
deriving DecidableEq, Repr

structure SlotDef where
  name : String
  description : String := ""
deriving DecidableEq, Repr

structure ClassDef where
  key : String
  className : String := ""
  description : String := ""
deriving DecidableEq, Repr

/-- Line 90 of the source. -/
def cssComponents : List String :=
  ["Box", "Grid", "Typography", "Stack"]

/-- The `<ul>` demo list string of the page record (lines 443–445). -/
def demosHtml (demos : List Demo) : String :=
  "<ul>" ++ joinSep "\n" (demos.map fun d =>
    "<li><a href=\"" ++ d.demoPathname ++ "\">" ++ d.demoPageTitle ++ "</a></li>") ++ "</ul>"

/-- One entry of the per-prop translation bundle. -/
structure PropTranslation where
  description : String
  requiresRef : Option Bool := none
  deprecated : Option String := none
  typeDescriptions : Option (List (String × String)) := none
deriving DecidableEq, Repr

/-- The translation bundle attached to a component. -/
structure Translations where
  componentDescription : String := ""
  propDescriptions : List (String × PropTranslation) := []
  classDescriptions : List (String × ClassCond) := []
  slotDescriptions : Option (List (String × String)) := none
deriving DecidableEq, Repr

/-- The mutable `reactApi` record built up by `generateComponentApi`
(fields of the `ReactApi` interface used by the analysed file). -/
structure ReactApiModel where
  name : String
  filename : String := ""
  muiName : String := ""
  apiPathname : String := ""
  eol : String := "\n"
  description : String := ""
  props : List (String × RawProp) := []
  imports : List String := []
  forwardsRefTo : Option String := none
  spread : Option Bool := none
  themeDefaultProps : Option (Option Bool) := none
  demos : List Demo := []
  inheritance : Option InheritanceRef := none
  classes : List ClassDef := []
  slots : List SlotDef := []
  propsTable : List (String × PropsTableRow) := []
  translations : Translations := {}
deriving Repr

/-- The JSON page record assembled by `generateApiPage` (lines 413–447). -/
structure PageContent where
  props : List (String × PropsTableRow)
  name : String
  imports : List String
  slots : Option (List SlotDef)
  classes : List ClassDef
  spread : Option Bool
  themeDefaultProps : Option (Option Bool)
  muiName : String
  forwardsRefTo : Option String
  filename : String
  inheritance : Option (String × String)
  demos : String
  cssComponent : Bool
deriving Repr

/-- Lines 409–447 of the source: the `pageContent` record.  `JSON.stringify`,
prettier and the fs write are external; `toGitHubPath` relativises against the
process working directory via the `path` module and is passed in. -/
def generateApiPageContent (toGitHub : String → String) (api : ReactApiModel) : PageContent :=
  let normalizedApiPathname := replaceAllChar '\\' '/' api.apiPathname
  { props := sortedPropEntries api.propsTable
    name := api.name
    imports := api.imports
    slots := if api.slots.length > 0 then some api.slots else none
    classes := api.classes
    spread := api.spread
    themeDefaultProps := api.themeDefaultProps
    muiName :=
      if jsStartsWith "/joy-ui" normalizedApiPathname then
        replaceFirstStr "Mui" "Joy" api.muiName
      else api.muiName
    forwardsRefTo := api.forwardsRefTo
    filename := toGitHub api.filename
    inheritance := api.inheritance.map fun inh => (inh.name, inh.apiPathname)
    demos := demosHtml api.demos
    cssComponent := decide (0 ≤ jsIndexOf api.name cssComponents) }

/-- Lines 485–538 of the source (`attachTranslations`), with the markdown
renderer and the two description generators taken from `ext`. -/
def attachTranslations (ext : Externals) (api : ReactApiModel) : Translations :=
  { componentDescription := api.description
    propDescriptions := api.props.filterMap fun e =>
      match ext.createDescribeableProp e.2 e.1 with
      | .error _ => none
      | .ok prop =>
        let gen := ext.generatePropDescription prop e.1
        let typeDescriptions :=
          ((gen.signatureArgs.getD []) ++
            (match gen.signatureReturn with
             | some r => [r]
             | none => [])).map fun arg => (arg.name, ext.renderMarkdown arg.description)
        some (e.1,
          { description := ext.renderMarkdown gen.jsDocText
            requiresRef := if gen.requiresRef then some true else none
            deprecated :=
              let s := ext.renderMarkdown gen.deprecated
              if s = "" then none else some s
            typeDescriptions :=
              if typeDescriptions.length > 0 then some typeDescriptions else none })
    slotDescriptions :=
      if api.slots.length > 0 then some (api.slots.map fun s => (s.name, s.description))
      else none
    classDescriptions :=
      extractClassConditions ext.renderMarkdown (api.classes.map fun c => (c.key, c.description)) }

/-! ## The annotation comment (`annotateComponentDefinition`)

The babel/AST location logic that finds the insertion span in the `.d.ts`
file is external; what is modelled is the generated markdown block (lines
275–313 of the source), at the level of its logical line list.  The remark
pipeline of `computeApiDescription` (relative-link absolutisation followed by
`.trim()`) is the external `cad` parameter. -/

def annotationHost : String := "https://mui.com"

/-- `x.startsWith('http') ? x : HOST + x`. -/
def absUrl (u : String) : String :=
  if jsStartsWith "http" u then u else annotationHost ++ u

/-- The `markdownLines` list of `annotateComponentDefinition`
(lines 284–309). -/
def annotationLines (cad : String → String) (api : ReactApiModel) : List (List Char) :=
  let markdownLines := splitNl (cad api.description).data
  let markdownLines :=
    if markdownLines.getLastD [] ≠ [] then markdownLines ++ [[]] else markdownLines
  let demoLines := api.demos.map fun demo =>
    ("- [" ++ demo.demoPageTitle ++ "](" ++ absUrl demo.demoPathname ++ ")").data
  let apiLines := [("- [" ++ api.name ++ " API](" ++ absUrl api.apiPathname ++ ")").data]
  let inheritLines :=
    match api.inheritance with
    | some inh => [("- inherits [" ++ inh.name ++ " API](" ++ absUrl inh.apiPathname ++ ")").data]
    | none => []
  markdownLines ++ ["Demos:".data, []] ++ demoLines ++ [[]] ++
    ["API:".data, []] ++ apiLines ++ inheritLines

/-- The logical content of the generated jsdoc block: the annotation lines
joined with newlines (this is what a docgen re-parse of the annotated file
reports as the component description). -/
def annotationMarkdown (cad : String → String) (api : ReactApiModel) : String :=
  ⟨joinLines (annotationLines cad api)⟩

/-- Lines 311–313 of the source: the comment text written into the file, with
each line prefixed by `  *  `. -/
def jsdocComment (cad : String → String) (api : ReactApiModel) : String :=
  ⟨"/**\n".data ++
    joinLines ((annotationLines cad api).map fun l =>
      if l ≠ [] then ' ' :: '*' :: ' ' :: l else " *".data) ++
    "\n */".data⟩

/-! ## Translation files (`generateApiTranslations`) and the file system -/

/-- The file system, as a map from paths to contents. -/
def FS : Type := String → Option String

/-- `writeFileSync` (through the prettifier, which is external: contents are
stored as given). -/
def writeFs (fs : FS) (p c : String) : FS :=
  fun q => if q = p then some c else fs q

/-- `writeFileSync` with `{ flag: 'wx' }` wrapped in `try/catch <ignore>`:
exclusive create, a no-op when the file exists. -/
def writeFsExclusive (fs : FS) (p c : String) : FS :=
  match fs p with
  | some _ => fs
  | none => writeFs fs p c

/-- `resolveApiDocsTranslationsComponentLanguagePath` (lines 369–375), with
`path.resolve`/`path.join` as `/`-joins and `kebabCase` external. -/
def translationFilePath (kebab : String → String)
    (outputDirectory componentName language : String) : String :=
  outputDirectory ++ "/" ++ kebab componentName ++ "/" ++ kebab componentName ++
    (if language = "en" then "" else "-" ++ language) ++ ".json"

/-- The body of the `languages.forEach` loop of lines 387–400: nothing for
`en`, an exclusive create for every other language. -/
def translationWriteStep (kebab : String → String) (content outputDirectory name : String)
    (fs : FS) (language : String) : FS :=
  if language = "en" then fs
  else writeFsExclusive fs (translationFilePath kebab outputDirectory name language) content

/-- Lines 362–401 of the source (`generateApiTranslations`): the `en` bundle
is written unconditionally, every other language by exclusive create.
`mkdirSync` and `JSON.stringify` (the `stringify` parameter) are external. -/
def generateApiTranslations (kebab : String → String) (stringify : Translations → String)
    (outputDirectory : String) (api : ReactApiModel) (languages : List String)
    (fs : FS) : FS :=
  let fs := writeFs fs (translationFilePath kebab outputDirectory api.name "en")
    (stringify api.translations)
  languages.foldl
    (translationWriteStep kebab (stringify api.translations) outputDirectory api.name) fs

/-! ## The docgen lookup of `generateComponentApi` (lines 700–752) -/

/-- A variable-declarator initialiser as inspected by the finder callback:
a call expression (with the callee name when the callee is an identifier),
a TypeScript expression wrapper (`x as T`, whose `.expression` field the
finder unwraps once), or anything else. -/
inductive JsInit where
  | call (callee : Option String)
  | wrapped (inner : JsInit)
  | other
deriving DecidableEq, Repr

structure JsDeclarator where
  init : Option JsInit
deriving DecidableEq, Repr

structure JsVarDecl where
  declarations : List JsDeclarator
deriving DecidableEq, Repr

/-- `definition.value?.expression ? definition.get('expression') :
definition`. -/
def unwrapExpression (e : JsInit) : JsInit :=
  match e with
  | .wrapped inner => inner
  | x => x

/-- One declarator step of the finder callback: a declarator initialiser that
(after the single `.expression` unwrap) is a call of `create<ComponentName>`
overwrites the remembered node. -/
def createDefStep (componentName : String) (node : Option JsInit) (d : JsDeclarator) :
    Option JsInit :=
  match d.init with
  | none => node
  | some ini =>
    match unwrapExpression ini with
    | .call (some calleeName) =>
      if calleeName = "create" ++ componentName then some (unwrapExpression ini) else node
    | _ => node

/-- One variable-declaration step of the finder callback. -/
def createDefDeclStep (componentName : String) (node : Option JsInit) (vd : JsVarDecl) :
    Option JsInit :=
  vd.declarations.foldl (createDefStep componentName) node

/-- The finder callback of lines 704–734: visit the variable declarations in
source order, remember (overwriting) every declarator initialiser that is a
call of `create<ComponentName>`; the last match is returned. -/
def findCreateDefinition (componentName : String) (ast : List JsVarDecl) : Option JsInit :=
  ast.foldl (createDefDeclStep componentName) none

/-- The docgen parse result (fields used by the analysed file). -/
structure RawApi where
  description : String := ""
  props : List (String × RawProp) := []
deriving Repr

/-- The external `react-docgen` parser: `ast` is its parse of the component
source, `resolveFinder` its behaviour when driven by the finder callback
(given the node the finder selected), `parseDefault` its behaviour with the
default resolver plus `muiDefaultPropsHandler`. -/
structure DocgenEnv where
  ast : List JsVarDecl
  resolveFinder : Option JsInit → Except String RawApi
  parseDefault : Except String RawApi

/-- The exact fallback signal tested on line 740 of the source. -/
def noSuitableMsg : String := "No suitable component definition found."

/-- Lines 700–752 of the source: a system component is first parsed with the
`create<ComponentName>` finder; only the exact `noSuitableMsg` error falls
back to default detection, any other error is rethrown; a non-system
component uses default detection directly. -/
def parseComponentSource (env : DocgenEnv) (componentName : String)
    (isSystemComponent : Bool) : Except String RawApi :=
  if isSystemComponent then
    match env.resolveFinder (findCreateDefinition componentName env.ast) with
    | .ok api => .ok api
    | .error msg => if msg = noSuitableMsg then env.parseDefault else .error msg
  else env.parseDefault

/-! ## The component pipeline (`generateComponentApi`, lines 686–831) -/

/-- Test-file-derived metadata (`parseTest`, external). -/
structure TestInfo where
  forwardsRefTo : Option String := none
  spread : Option Bool := none
  themeDefaultProps : Option (Option Bool) := none
  inheritComponent : Option String := none

/-- The `componentInfo` collaborator (fields and accessors used by the
analysed file; `readFile` results are inlined). -/
structure ComponentInfoData where
  name : String
  filename : String := ""
  muiName : String := ""
  apiPathname : String := ""
  apiPagesDirectory : String := ""
  isSystemComponent : Bool := false
  skipApiGeneration : Bool := false
  shouldSkip : Bool := false
  srcSpread : Option Bool := none
  eol : String := "\n"
  demos : List Demo := []
  inheritance : Option String → Option InheritanceRef := fun _ => none

structure ProjectSettingsData where
  translationLanguages : List String := []

/-- All external collaborators of one pipeline run. -/
structure PipelineEnv where
  docgen : DocgenEnv
  testInfo : TestInfo
  slots : List SlotDef := []
  classes : List ClassDef := []
  ext : Externals
  stringifyTranslations : Translations → String := fun _ => ""
  stringifyPage : PageContent → String := fun _ => ""
  pageModuleSource : String → ReactApiModel → String := fun _ _ => ""
  annotatedTypesSource : ReactApiModel → String → String := fun _ c => c

/-- The errors `generateComponentApi` can throw before emitting anything. -/
inductive BuildError where
  | docgenFailed (msg : String)
  | missingDemos (componentName : String)
  | propDescriptions (msg : String)
deriving DecidableEq, Repr

/-- Lines 767–771 of the source. -/
def missingDemosMessage (componentName : String) : String :=
  "Unable to find demos. \n" ++
    "Be sure to include `components: " ++ componentName ++
    "` in the markdown pages where the `" ++ componentName ++
    "` component is relevant. " ++
    "Every public component should have a demo. "

def BuildError.message : BuildError → String
  | .docgenFailed m => m
  | .missingDemos n => missingDemosMessage n
  | .propDescriptions m => m

/-- `filename.replace(/\.js$/, '.d.ts')`. -/
def typesFilenameOf (filename : String) : String :=
  if ".js".data.isSuffixOf filename.data then
    ⟨(filename.data.take (filename.data.length - 3)) ++ ".d.ts".data⟩
  else filename

/-- Lines 403–483 of the source as a file-system transformer: the JSON page
record is always written; the page module only when `onlyJsonFile` is
false.  The module template and `JSON.stringify` are external strings. -/
def generateApiPageFs (env : PipelineEnv) (apiPagesDirectory translationPagesDirectory : String)
    (api : ReactApiModel) (onlyJsonFile : Bool) (fs : FS) : FS :=
  let pageContent := generateApiPageContent env.ext.toGitHubPath api
  let fs := writeFs fs (apiPagesDirectory ++ "/" ++ env.ext.kebabCase api.name ++ ".json")
    (env.stringifyPage pageContent)
  if onlyJsonFile then fs
  else
    writeFs fs (apiPagesDirectory ++ "/" ++ env.ext.kebabCase api.name ++ ".js")
      (env.pageModuleSource translationPagesDirectory api)

/-- Lines 686–831 of the source (`generateComponentApi`) as a function from
the external environment and an initial file system to either a build error
(nothing written) or the final `reactApi` record plus the file system after
the writes.  The program order of the source is preserved: parse, strip the
description trailer, demo check, test-file metadata, classes/slots, props
table, translations, then (unless `skipApiGeneration`) the three artifact
writes. -/
def generateComponentApi (env : PipelineEnv) (info : ComponentInfoData)
    (settings : ProjectSettingsData) (fs : FS) :
    Except BuildError (Option (ReactApiModel × FS)) :=
  if info.shouldSkip then .ok none
  else
    match parseComponentSource env.docgen info.name info.isSystemComponent with
    | .error msg => .error (.docgenFailed msg)
    | .ok raw =>
      let description := stripAnnotatedDescription raw.description
      if info.demos.isEmpty then .error (.missingDemos info.name)
      else
        match attachPropsTable env.ext info.name info.apiPathname raw.props with
        | .error msg => .error (.propDescriptions msg)
        | .ok table =>
          let api0 : ReactApiModel :=
            { name := info.name
              filename := info.filename
              muiName := info.muiName
              apiPathname := info.apiPathname
              eol := info.eol
              description := description
              props := raw.props
              imports := env.ext.getComponentImports info.name info.filename
              forwardsRefTo := env.testInfo.forwardsRefTo
              spread :=
                match env.testInfo.spread with
                | some s => some s
                | none => info.srcSpread
              themeDefaultProps := env.testInfo.themeDefaultProps
              demos := info.demos
              inheritance := info.inheritance env.testInfo.inheritComponent
              classes := env.classes
              slots := env.slots
              propsTable := table }
          let api := { api0 with translations := attachTranslations env.ext api0 }
          if info.skipApiGeneration then .ok (some (api, fs))
          else
            let normalizedApiPathname := replaceAllChar '\\' '/' api.apiPathname
            let normalizedFilename := replaceAllChar '\\' '/' api.filename
            let translationPagesDirectory :=
              if jsStartsWith "/joy-ui" normalizedApiPathname &&
                  jsIncludes "mui-joy/src" normalizedFilename then
                "docs/translations/api-docs-joy"
              else if jsStartsWith "/base" normalizedApiPathname &&
                  jsIncludes "mui-base/src" normalizedFilename then
                "docs/translations/api-docs-base"
              else "docs/translations/api-docs"
            let fs1 := generateApiTranslations env.ext.kebabCase env.stringifyTranslations
              (env.ext.cwd ++ "/" ++ translationPagesDirectory) api
              settings.translationLanguages fs
            let generateOnlyJsonFile := jsStartsWith "/base" normalizedApiPathname
            let fs2 := generateApiPageFs env info.apiPagesDirectory translationPagesDirectory
              api generateOnlyJsonFile fs1
            let fs3 := writeFs fs2 (typesFilenameOf api.filename)
              (env.annotatedTypesSource api (jsdocComment env.ext.computeApiDescription api))
            .ok (some (api, fs3))

/-! ## Claim-side definitions

For the claims that compare the specification text against the code, a second
definition follows the specification words, to be set against the
source-derived one. -/

/-- The `required` flag as claim C4 words it: rule (2) reads "the raw type
signature textually ends in an `isRequired` marker". -/
def claimRequiredFlag (prop : DescribeableProp) : Bool :=
  prop.required || ".isRequired".data.isSuffixOf prop.type.raw.data ||
    (match getChained prop.type with
     | some c => c.required
     | none => false)

/-- The `required` flag as the source computes it (rule (2) is an unanchored
substring test): the amended wording of claim C4. -/
def amendedRequiredFlag (prop : DescribeableProp) : Bool :=
  prop.required || containsSub ".isRequired".data prop.type.raw.data ||
    (match getChained prop.type with
     | some c => c.required
     | none => false)

/-! # Theorems -/

/-! ## `jsIndexOf` -/

lemma jsIndexOf_nonneg_iff (x : String) : ∀ l : List String, 0 ≤ jsIndexOf x l ↔ x ∈ l := by
  intro l
  induction l with
  | nil => simp [jsIndexOf]
  | cons y ys ih =>
    by_cases hxy : y = x
    · simp [jsIndexOf, hxy]
    · by_cases hr : jsIndexOf x ys = -1
      · rw [jsIndexOf, if_neg hxy, if_pos hr]
        rw [hr] at ih
        simp only [List.mem_cons]
        constructor
        · intro h; omega
        · intro h
          rcases h with h | h
          · exact absurd h.symm hxy
          · exact absurd (ih.mpr h) (by omega)
      · rw [jsIndexOf, if_neg hxy, if_neg hr]
        rw [List.mem_cons]
        constructor
        · intro _
          exact Or.inr (ih.mp (by omega))
        · intro h
          rcases h with h | h
          · exact absurd h.symm hxy
          · have := ih.mpr h; omega

/-! ## The `create<ComponentName>` finder -/

lemma createDefStep_invariant (name : String) (node : Option JsInit) (d : JsDeclarator)
    (h : ∀ e, node = some e → e = JsInit.call (some ("create" ++ name))) :
    ∀ e, createDefStep name node d = some e → e = JsInit.call (some ("create" ++ name)) := by
  intro e he
  unfold createDefStep at he
  split at he
  · exact h e he
  · split at he
    · rename_i ini hini cn hcn
      split at he
      · rename_i hc
        rw [hcn] at he
        simp only [Option.some.injEq] at he
        rw [← he, hc]
      · exact h e he
    · exact h e he

lemma foldl_createDefStep_invariant (name : String) (ds : List JsDeclarator) :
    ∀ node, (∀ e, node = some e → e = JsInit.call (some ("create" ++ name))) →
      ∀ e, ds.foldl (createDefStep name) node = some e →
        e = JsInit.call (some ("create" ++ name)) := by
  induction ds with
  | nil => intro node h e he; exact h e he
  | cons d ds ih =>
    intro node h e he
    exact ih _ (createDefStep_invariant name node d h) e he

lemma findCreateDefinition_spec (name : String) (ast : List JsVarDecl) :
    ∀ e, findCreateDefinition name ast = some e →
      e = JsInit.call (some ("create" ++ name)) := by
  unfold findCreateDefinition
  have main : ∀ (l : List JsVarDecl) (node : Option JsInit),
      (∀ e, node = some e → e = JsInit.call (some ("create" ++ name))) →
      ∀ e, l.foldl (createDefDeclStep name) node = some e →
        e = JsInit.call (some ("create" ++ name)) := by
    intro l
    induction l with
    | nil => intro node h e he; exact h e he
    | cons vd l ih =>
      intro node h e he
      exact ih _ (foldl_createDefStep_invariant name vd.declarations node h) e he
  exact main ast none (by intro e he; cases he)

/-- C9: for a system component, `generateComponentApi` first parses with the
finder that selects a variable initialised by a call of the factory named
exactly `create<ComponentName>`; exactly the error message
`No suitable component definition found.` makes it retry with the default
detection, any other error is rethrown unchanged, and a non-system component
uses default detection directly. -/
theorem parseComponentSource_factory_fallback_spec (env : DocgenEnv) (name : String) :
    (env.resolveFinder (findCreateDefinition name env.ast) = .error noSuitableMsg →
      parseComponentSource env name true = env.parseDefault) ∧
    (∀ m, env.resolveFinder (findCreateDefinition name env.ast) = .error m →
      m ≠ noSuitableMsg → parseComponentSource env name true = .error m) ∧
    (∀ a, env.resolveFinder (findCreateDefinition name env.ast) = .ok a →
      parseComponentSource env name true = .ok a) ∧
    parseComponentSource env name false = env.parseDefault ∧
    (∀ e, findCreateDefinition name env.ast = some e →
      e = JsInit.call (some ("create" ++ name))) := by
  refine ⟨?_, ?_, ?_, ?_, findCreateDefinition_spec name env.ast⟩
  · intro h; simp [parseComponentSource, h]
  · intro m h hne; simp [parseComponentSource, h, hne]
  · intro a h; simp [parseComponentSource, h]
  · simp [parseComponentSource]

def witnessAst : List JsVarDecl :=
  [{ declarations := [{ init := some (.wrapped (.call (some "createBox"))) },
                      { init := none }] }]

def witnessEnvFallback : DocgenEnv :=
  { ast := witnessAst
    resolveFinder := fun _ => .error noSuitableMsg
    parseDefault := .ok { description := "default" } }

def witnessEnvOther : DocgenEnv :=
  { ast := witnessAst
    resolveFinder := fun _ => .error "boom"
    parseDefault := .ok { description := "default" } }

theorem parseComponentSource_factory_fallback_spec_witness :
    parseComponentSource witnessEnvFallback "Box" true = witnessEnvFallback.parseDefault ∧
    parseComponentSource witnessEnvOther "Box" true = .error "boom" ∧
    parseComponentSource witnessEnvOther "Box" false = witnessEnvOther.parseDefault ∧
    JsInit.call (some "createBox") = JsInit.call (some ("create" ++ "Box")) :=
  ⟨(parseComponentSource_factory_fallback_spec witnessEnvFallback "Box").1 rfl,
   (parseComponentSource_factory_fallback_spec witnessEnvOther "Box").2.1 "boom" rfl
     (by decide),
   (parseComponentSource_factory_fallback_spec witnessEnvOther "Box").2.2.2.1,
   (parseComponentSource_factory_fallback_spec witnessEnvFallback "Box").2.2.2.2
     (JsInit.call (some "createBox")) rfl⟩

/-- C10: the `cssComponent` flag of the emitted API page record is `true`
exactly for the components named `Box`, `Grid`, `Typography` or `Stack`. -/
theorem cssComponent_iff_box_grid_typography_stack (toGitHub : String → String)
    (api : ReactApiModel) :
    (generateApiPageContent toGitHub api).cssComponent = true ↔
      (api.name = "Box" ∨ api.name = "Grid" ∨ api.name = "Typography" ∨
        api.name = "Stack") := by
  have h := jsIndexOf_nonneg_iff api.name cssComponents
  have hcc : (generateApiPageContent toGitHub api).cssComponent =
      decide (0 ≤ jsIndexOf api.name cssComponents) := rfl
  rw [hcc, decide_eq_true_eq, h]
  simp [cssComponents]

/-! ## Aggregated prop errors (`attachPropsTable`) -/

lemma joinSep_mem_decompose (sep : String) (x : String) :
    ∀ parts : List String, x ∈ parts →
      ∃ pre post, joinSep sep parts = pre ++ x ++ post := by
  intro parts
  induction parts with
  | nil => intro h; cases h
  | cons a tl ih =>
    intro h
    rcases List.mem_cons.mp h with rfl | hmem
    · cases tl with
      | nil =>
        exact ⟨"", "", by rw [joinSep, String.empty_append, String.append_empty]⟩
      | cons b tl2 =>
        refine ⟨"", sep ++ joinSep sep (b :: tl2), ?_⟩
        rw [joinSep, String.empty_append, String.append_assoc]
    · cases tl with
      | nil => cases hmem
      | cons b tl2 =>
        rcases ih hmem with ⟨pre, post, hp⟩
        refine ⟨a ++ sep ++ pre, post, ?_⟩
        rw [joinSep, hp]
        simp [String.append_assoc]

lemma propError_mem (ext : Externals) (cname path : String)
    (props : List (String × RawProp)) (pn : String) (pd : RawProp) (err : String)
    (hmem : (pn, pd) ∈ props) (herr : ext.createDescribeableProp pd pn = .error err) :
    (formatPropRef cname pn, err) ∈
      (props.map (propEntryResult ext cname path)).filterMap propErrorOf := by
  have hval : propEntryResult ext cname path (pn, pd) =
      Sum.inl (formatPropRef cname pn, err) := by
    simp [propEntryResult, herr]
  refine List.mem_filterMap.mpr ⟨propEntryResult ext cname path (pn, pd), ?_, ?_⟩
  · exact List.mem_map.mpr ⟨(pn, pd), hmem, rfl⟩
  · rw [hval]
    rfl

lemma propErrorsMessage_names (propErrors : List (String × String)) (tag err : String)
    (hmem : (tag, err) ∈ propErrors) :
    ∃ pre post, propErrorsMessage propErrors = pre ++ tag ++ post := by
  have hpart : ("  - " ++ tag ++ ": Error: " ++ err) ∈
      propErrors.map (fun p => "  - " ++ p.1 ++ ": Error: " ++ p.2) :=
    List.mem_map.mpr ⟨(tag, err), hmem, rfl⟩
  rcases joinSep_mem_decompose "\n" _ _ hpart with ⟨pre, post, hp⟩
  refine ⟨"There were errors creating prop descriptions:\n" ++ (pre ++ "  - "),
    ": Error: " ++ err ++ post, ?_⟩
  rw [propErrorsMessage, hp]
  simp [String.append_assoc]

/-- C2: `attachPropsTable` processes every prop: it succeeds exactly when no
prop fails normalisation, and when at least one prop fails it produces one
aggregated error that names every failing prop, each tagged with the
component name (nothing is attached in that case — the result is an error,
not a table). -/
theorem attachPropsTable_aggregates_all_prop_errors
    (ext : Externals) (cname path : String) (props : List (String × RawProp)) :
    ((∀ p ∈ props, ∃ d, ext.createDescribeableProp p.2 p.1 = .ok d) →
      ∃ table, attachPropsTable ext cname path props = .ok table) ∧
    (∀ p ∈ props, ∀ err, ext.createDescribeableProp p.2 p.1 = .error err →
      ∃ msg, attachPropsTable ext cname path props = .error msg ∧
        ∀ q ∈ props, ∀ e2, ext.createDescribeableProp q.2 q.1 = .error e2 →
          ∃ pre post, msg = pre ++ formatPropRef cname q.1 ++ post) := by
  constructor
  · intro hok
    have hnil : (props.map (propEntryResult ext cname path)).filterMap propErrorOf = [] := by
      rw [List.filterMap_eq_nil_iff]
      intro a ha
      rcases List.mem_map.mp ha with ⟨p, hp, rfl⟩
      rcases hok p hp with ⟨d, hd⟩
      have hval : propEntryResult ext cname path p =
          Sum.inr (p.1, buildRow ext path p.1 p.2 d) := by
        simp [propEntryResult, hd]
      rw [hval]
      rfl
    refine ⟨(props.map (propEntryResult ext cname path)).filterMap propRowOf, ?_⟩
    simp [attachPropsTable, hnil]
  · intro p hp err herr
    have hmem := propError_mem ext cname path props p.1 p.2 err hp herr
    have hne : ((props.map (propEntryResult ext cname path)).filterMap propErrorOf).isEmpty
        = false := by
      have hnil := List.ne_nil_of_mem hmem
      cases h : (props.map (propEntryResult ext cname path)).filterMap propErrorOf with
      | nil => exact absurd h hnil
      | cons a l => rfl
    refine ⟨propErrorsMessage
        ((props.map (propEntryResult ext cname path)).filterMap propErrorOf), ?_, ?_⟩
    · simp only [attachPropsTable]
      rw [hne]
      simp
    · intro q hq e2 he2
      exact propErrorsMessage_names _ _ e2 (propError_mem ext cname path props q.1 q.2 e2 hq he2)

def trivialExt : Externals :=
  { renderMarkdown := id
    createDescribeableProp := fun pd _ => .ok { type := pd.type }
    generatePropDescription := fun _ _ => {}
    generatePropTypeDescription := fun t => t.name
    kebabCase := id
    toGitHubPath := id }

def failTwoExt : Externals :=
  { trivialExt with
    createDescribeableProp := fun pd pn =>
      if pn = "good" then .ok { type := pd.type } else .error ("bad " ++ pn) }

def witnessRawProp : RawProp :=
  { type := { name := "bool" } }

theorem attachPropsTable_aggregates_all_prop_errors_witness :
    (∃ table, attachPropsTable trivialExt "Chip" "/material-ui/api/chip/"
      [("good", witnessRawProp)] = .ok table) ∧
    (∃ msg, attachPropsTable failTwoExt "Chip" "/material-ui/api/chip/"
      [("alpha", witnessRawProp), ("good", witnessRawProp), ("beta", witnessRawProp)] =
        .error msg ∧
      ∀ q ∈ [("alpha", witnessRawProp), ("good", witnessRawProp), ("beta", witnessRawProp)],
        ∀ e2, failTwoExt.createDescribeableProp q.2 q.1 = .error e2 →
          ∃ pre post, msg = pre ++ formatPropRef "Chip" q.1 ++ post) :=
  ⟨(attachPropsTable_aggregates_all_prop_errors trivialExt "Chip" "/material-ui/api/chip/"
      [("good", witnessRawProp)]).1
    (by intro p hp; rcases List.mem_singleton.mp hp with rfl; exact ⟨_, rfl⟩),
   (attachPropsTable_aggregates_all_prop_errors failTwoExt "Chip" "/material-ui/api/chip/"
      [("alpha", witnessRawProp), ("good", witnessRawProp), ("beta", witnessRawProp)]).2
    ("alpha", witnessRawProp) (by decide) "bad alpha" (by rfl)⟩

/-! ## The `required` flag (`attachPropsTable`, lines 567–570) -/

def chainedRequiredProp : DescribeableProp :=
  { required := false
    type := { name := "chained", raw := "chainPropTypes(...)",
              chained := some { required := true } } }

def containsNotSuffixProp : DescribeableProp :=
  { required := false
    type := { name := "custom", raw := "a.isRequired.b" } }

def containsNotSuffixRaw : RawProp :=
  { type := { name := "custom", raw := "a.isRequired.b" } }

/-- C4 counterexample: the source tests `/\.isRequired/.test(prop.type.raw)`,
an unanchored substring test, not the suffix test of the claim: the raw
signature `a.isRequired.b` contains but does not end in the marker, no other
rule applies, and the derived `required` flag is nevertheless `true` — so
the claimed three-rule characterisation is false at this input. -/
theorem requiredFlag_contains_not_endsWith_counterexample :
    (buildRow trivialExt "/material-ui/api/x/" "p" containsNotSuffixRaw
        containsNotSuffixProp).required = true ∧
    claimRequiredFlag containsNotSuffixProp = false := by
  constructor
  · rfl
  · rfl

/-- C4 (amended): the derived `required` flag is `true` exactly when the
explicit `required` of the normalised descriptor is set, or the raw type
signature contains the substring `.isRequired`, or the chained-type unwrap
marked it required (first match wins, disjunction); consequently any
chained descriptor whose unwrap is marked required yields `required = true`
regardless of the other rules. -/
theorem requiredFlag_matches_amended_rules (ext : Externals) (path pn : String)
    (pd : RawProp) (prop : DescribeableProp) :
    (buildRow ext path pn pd prop).required = amendedRequiredFlag prop ∧
    (∀ c, getChained prop.type = some c → c.required = true →
      (buildRow ext path pn pd prop).required = true) := by
  constructor
  · rfl
  · intro c hc hr
    show (prop.required || containsSub ".isRequired".data prop.type.raw.data ||
      (match getChained prop.type with
       | some c => c.required
       | none => false)) = true
    rw [hc]
    simp [hr]

theorem requiredFlag_matches_amended_rules_witness :
    (buildRow trivialExt "/material-ui/api/x/" "p" containsNotSuffixRaw
        chainedRequiredProp).required = true ∧
    (buildRow trivialExt "/material-ui/api/x/" "p" containsNotSuffixRaw
        containsNotSuffixProp).required = amendedRequiredFlag containsNotSuffixProp :=
  ⟨(requiredFlag_matches_amended_rules trivialExt "/material-ui/api/x/" "p"
      containsNotSuffixRaw chainedRequiredProp).2 { required := true } rfl rfl,
   (requiredFlag_matches_amended_rules trivialExt "/material-ui/api/x/" "p"
      containsNotSuffixRaw containsNotSuffixProp).1⟩

/-! ## The `type.description` dedup contract -/

lemma attachPropsTable_ok_mem (ext : Externals) (cname path : String)
    (props : List (String × RawProp)) (table : List (String × PropsTableRow))
    (h : attachPropsTable ext cname path props = .ok table)
    (pn : String) (row : PropsTableRow) (hmem : (pn, row) ∈ table) :
    ∃ pd prop, (pn, pd) ∈ props ∧ ext.createDescribeableProp pd pn = .ok prop ∧
      row = buildRow ext path pn pd prop := by
  cases he : ((props.map (propEntryResult ext cname path)).filterMap propErrorOf).isEmpty with
  | false =>
    simp only [attachPropsTable] at h
    rw [he] at h
    simp at h
  | true =>
    have htab : table = props.filterMap (propRowOf ∘ propEntryResult ext cname path) := by
      simp only [attachPropsTable] at h
      rw [he] at h
      simp at h
      exact h.symm
    rw [htab] at hmem
    rcases List.mem_filterMap.mp hmem with ⟨e, he2, hrow⟩
    rw [Function.comp_apply] at hrow
    cases hcr : ext.createDescribeableProp e.2 e.1 with
    | error err =>
      have hval : propEntryResult ext cname path e = .inl (formatPropRef cname e.1, err) := by
        simp [propEntryResult, hcr]
      rw [hval] at hrow
      simp [propRowOf] at hrow
    | ok prop =>
      have hval : propEntryResult ext cname path e =
          .inr (e.1, buildRow ext path e.1 e.2 prop) := by
        simp [propEntryResult, hcr]
      rw [hval] at hrow
      simp only [propRowOf, Option.some.injEq] at hrow
      have h1 : e.1 = pn := congrArg Prod.fst hrow
      have h2 : buildRow ext path e.1 e.2 prop = row := congrArg Prod.snd hrow
      subst h1
      exact ⟨e.2, prop, by simpa using he2, hcr, h2.symm⟩

/-- C6: for every prop of the emitted props table, the `type.description`
field is omitted exactly when the rendered type description string equals the
raw type name, and otherwise equals the rendered description. -/
theorem propsTable_type_description_dedup (ext : Externals) (cname path : String)
    (props : List (String × RawProp)) (table : List (String × PropsTableRow))
    (h : attachPropsTable ext cname path props = .ok table)
    (pn : String) (row : PropsTableRow) (hmem : (pn, row) ∈ table) :
    ∃ pd, (pn, pd) ∈ props ∧
      (row.type.description = none ↔
        ext.generatePropTypeDescription pd.type = pd.type.name) ∧
      (ext.generatePropTypeDescription pd.type ≠ pd.type.name →
        row.type.description = some (ext.generatePropTypeDescription pd.type)) := by
  rcases attachPropsTable_ok_mem ext cname path props table h pn row hmem with
    ⟨pd, prop, hpd, _, hrow⟩
  refine ⟨pd, hpd, ?_, ?_⟩
  · rw [hrow]
    simp only [buildRow]
    by_cases hd : ext.generatePropTypeDescription pd.type = pd.type.name
    · simp [hd]
    · simp [hd]
  · intro hne
    rw [hrow]
    simp only [buildRow]
    simp [hne]

def dedupRaw : RawProp :=
  { type := { name := "bool" } }

def diffDescExt : Externals :=
  { trivialExt with generatePropTypeDescription := fun _ => "union of things" }

def dedupRowSame : PropsTableRow :=
  buildRow trivialExt "/p" "a" dedupRaw { type := dedupRaw.type }

def dedupRowDiff : PropsTableRow :=
  buildRow diffDescExt "/p" "a" dedupRaw { type := dedupRaw.type }

theorem propsTable_type_description_dedup_witness :
    (∃ pd, ("a", pd) ∈ [("a", dedupRaw)] ∧
      (dedupRowSame.type.description = none ↔
        trivialExt.generatePropTypeDescription pd.type = pd.type.name) ∧
      (trivialExt.generatePropTypeDescription pd.type ≠ pd.type.name →
        dedupRowSame.type.description =
          some (trivialExt.generatePropTypeDescription pd.type))) ∧
    (∃ pd, ("a", pd) ∈ [("a", dedupRaw)] ∧
      (dedupRowDiff.type.description = none ↔
        diffDescExt.generatePropTypeDescription pd.type = pd.type.name) ∧
      (diffDescExt.generatePropTypeDescription pd.type ≠ pd.type.name →
        dedupRowDiff.type.description =
          some (diffDescExt.generatePropTypeDescription pd.type))) :=
  ⟨propsTable_type_description_dedup trivialExt "C" "/p" [("a", dedupRaw)]
      [("a", dedupRowSame)] rfl "a" dedupRowSame (by simp),
   propsTable_type_description_dedup diffDescExt "C" "/p" [("a", dedupRaw)]
      [("a", dedupRowDiff)] rfl "a" dedupRowDiff (by simp)⟩

/-! ## Sortedness of the emitted props table -/

lemma char_toNat_inj (a b : Char) (h : a.toNat = b.toNat) : a = b := by
  apply Char.ext
  apply UInt32.ext
  exact h

lemma lexLt_asymm : ∀ a b : List Char, lexLt a b = true → lexLt b a = false := by
  intro a
  induction a with
  | nil =>
    intro b h
    cases b with
    | nil => simp [lexLt] at h
    | cons y ys => simp [lexLt]
  | cons x xs ih =>
    intro b h
    cases b with
    | nil => simp [lexLt] at h
    | cons y ys =>
      by_cases hxy : x = y
      · subst hxy
        simp only [lexLt, if_pos rfl] at h ⊢
        exact ih ys h
      · have hyx : ¬ y = x := fun hh => hxy hh.symm
        simp only [lexLt, if_neg hxy] at h
        simp only [lexLt, if_neg hyx]
        simp at h ⊢
        omega

lemma lexLt_trans : ∀ a b c : List Char,
    lexLt a b = true → lexLt b c = true → lexLt a c = true := by
  intro a
  induction a with
  | nil =>
    intro b c hab hbc
    cases b with
    | nil => simp [lexLt] at hab
    | cons y ys =>
      cases c with
      | nil => simp [lexLt] at hbc
      | cons z zs => simp [lexLt]
  | cons x xs ih =>
    intro b c hab hbc
    cases b with
    | nil => simp [lexLt] at hab
    | cons y ys =>
      cases c with
      | nil => simp [lexLt] at hbc
      | cons z zs =>
        by_cases hxy : x = y <;> by_cases hyz : y = z
        · subst hxy; subst hyz
          simp only [lexLt, if_pos rfl] at hab hbc ⊢
          exact ih ys zs hab hbc
        · subst hxy
          simp only [lexLt, if_pos rfl, if_neg hyz] at hab hbc ⊢
          exact hbc
        · subst hyz
          simp only [lexLt, if_neg hxy] at hab ⊢
          exact hab
        · by_cases hxz : x = z
          · exfalso
            simp only [lexLt, if_neg hxy, if_neg hyz] at hab hbc
            simp at hab hbc
            have : x.toNat = z.toNat := by rw [hxz]
            omega
          · simp only [lexLt, if_neg hxy, if_neg hyz, if_neg hxz] at hab hbc ⊢
            simp at hab hbc ⊢
            omega

lemma lexLt_eq_of_not : ∀ a b : List Char,
    lexLt a b = false → lexLt b a = false → a = b := by
  intro a
  induction a with
  | nil =>
    intro b hab _
    cases b with
    | nil => rfl
    | cons y ys => simp [lexLt] at hab
  | cons x xs ih =>
    intro b hab hba
    cases b with
    | nil => simp [lexLt] at hba
    | cons y ys =>
      by_cases hxy : x = y
      · subst hxy
        simp only [lexLt, if_pos rfl] at hab hba
        rw [ih ys hab hba]
      · exfalso
        have hyx : ¬ y = x := fun hh => hxy hh.symm
        simp only [lexLt, if_neg hxy] at hab
        simp only [lexLt, if_neg hyx] at hba
        simp at hab hba
        exact hxy (char_toNat_inj x y (by omega))

lemma lexLt_not_lt_trans (a b c : List Char)
    (h1 : lexLt b a = false) (h2 : lexLt c b = false) : lexLt c a = false := by
  by_cases h : lexLt c a = true
  · exfalso
    by_cases hab : lexLt a b = true
    · have := lexLt_trans c a b h hab
      rw [h2] at this
      cases this
    · have heq := lexLt_eq_of_not a b (by simpa using hab) h1
      subst heq
      rw [h2] at h
      cases h
  · simpa using h

lemma propsSortLe_iff (a b : String × PropsTableRow) :
    propsSortLe a b ↔
      (a.2.required = true ∧ b.2.required = false) ∨
      (a.2.required = b.2.required ∧ lexLt b.1.data a.1.data = false) := by
  unfold propsSortLe propsComparator localeCompareInt
  cases ha : a.2.required <;> cases hb : b.2.required <;>
    simp only [ha, hb, Bool.and_self, Bool.and_false, Bool.false_and, Bool.true_and,
      Bool.not_false, Bool.not_true, Bool.or_self, Bool.false_or, Bool.or_false,
      Bool.true_or, Bool.and_true, if_true, if_false]
  · by_cases h1 : lexLt a.1.data b.1.data = true
    · rw [if_pos h1]
      simp [lexLt_asymm _ _ h1]
    · rw [if_neg h1]
      by_cases h2 : lexLt b.1.data a.1.data = true
      · rw [if_pos h2]
        simp [h2]
      · rw [if_neg h2]
        simp at h2
        simp [h2]
  · simp
  · simp
  · by_cases h1 : lexLt a.1.data b.1.data = true
    · rw [if_pos h1]
      simp [lexLt_asymm _ _ h1]
    · rw [if_neg h1]
      by_cases h2 : lexLt b.1.data a.1.data = true
      · rw [if_pos h2]
        simp [h2]
      · rw [if_neg h2]
        simp at h2
        simp [h2]

lemma propsSortLe_total (a b : String × PropsTableRow) :
    propsSortLe a b ∨ propsSortLe b a := by
  rw [propsSortLe_iff, propsSortLe_iff]
  cases ha : a.2.required <;> cases hb : b.2.required <;> simp
  · by_cases h : lexLt a.1.data b.1.data = true
    · exact Or.inl (lexLt_asymm _ _ h)
    · exact Or.inr (by simpa using h)
  · by_cases h : lexLt a.1.data b.1.data = true
    · exact Or.inl (lexLt_asymm _ _ h)
    · exact Or.inr (by simpa using h)

lemma propsSortLe_trans (a b c : String × PropsTableRow)
    (hab : propsSortLe a b) (hbc : propsSortLe b c) : propsSortLe a c := by
  rw [propsSortLe_iff] at hab hbc ⊢
  rcases hab with ⟨ha1, ha2⟩ | ⟨ha1, ha2⟩ <;> rcases hbc with ⟨hb1, hb2⟩ | ⟨hb1, hb2⟩
  · rw [ha2] at hb1
    cases hb1
  · exact Or.inl ⟨ha1, by rw [← hb1, ha2]⟩
  · exact Or.inl ⟨by rw [ha1, hb1], hb2⟩
  · exact Or.inr ⟨by rw [ha1, hb1], lexLt_not_lt_trans _ _ _ ha2 hb2⟩

lemma propsSortLe_strict (a b : String × PropsTableRow) (hle : propsSortLe a b)
    (hne : a.1 ≠ b.1) :
    (a.2.required = true ∧ b.2.required = false) ∨
    (a.2.required = b.2.required ∧ lexLt a.1.data b.1.data = true) := by
  rcases (propsSortLe_iff a b).mp hle with h | ⟨h1, h2⟩
  · exact Or.inl h
  · refine Or.inr ⟨h1, ?_⟩
    by_cases h : lexLt a.1.data b.1.data = true
    · exact h
    · exfalso
      exact hne (String.ext (lexLt_eq_of_not _ _ (by simpa using h) h2))

lemma propsSortLt_antisymm (a b : String × PropsTableRow)
    (hab : propsSortLe a b ∧ a.1 ≠ b.1) (hba : propsSortLe b a ∧ b.1 ≠ a.1) : a = b := by
  exfalso
  rcases (propsSortLe_iff a b).mp hab.1 with h1 | ⟨h1, h2⟩
  · rcases (propsSortLe_iff b a).mp hba.1 with h3 | ⟨h3, h4⟩
    · rw [h1.1] at h3
      exact absurd h3.2 (by simp)
    · rw [h1.1, h1.2] at h3
      cases h3
  · rcases (propsSortLe_iff b a).mp hba.1 with h3 | ⟨h3, h4⟩
    · rw [h3.1, h3.2] at h1
      cases h1
    · exact hab.2 (String.ext (lexLt_eq_of_not _ _ h4 h2))

/-- C1: the `props` object of the emitted API page record is the props table
sorted with every `required` entry before every non-required one and each of
the two groups strictly alphabetical by prop name; and the result is
deterministic — any permutation of the same table sorts to the same list. -/
theorem propsTable_sorted_required_first_then_name (toGitHub : String → String)
    (api : ReactApiModel) (hnodup : (api.propsTable.map Prod.fst).Nodup) :
    (generateApiPageContent toGitHub api).props.Perm api.propsTable ∧
    (generateApiPageContent toGitHub api).props.Pairwise (fun a b =>
      (a.2.required = true ∧ b.2.required = false) ∨
      (a.2.required = b.2.required ∧ lexLt a.1.data b.1.data = true)) ∧
    (∀ l2, l2.Perm api.propsTable →
      sortedPropEntries l2 = sortedPropEntries api.propsTable) := by
  haveI : IsTotal (String × PropsTableRow) propsSortLe := ⟨propsSortLe_total⟩
  haveI : IsTrans (String × PropsTableRow) propsSortLe := ⟨propsSortLe_trans⟩
  have hprops : (generateApiPageContent toGitHub api).props =
      sortedPropEntries api.propsTable := rfl
  have hperm : ∀ l : List (String × PropsTableRow), (sortedPropEntries l).Perm l :=
    fun l => List.perm_insertionSort _ l
  have hsorted : ∀ l, (sortedPropEntries l).Sorted propsSortLe :=
    fun l => List.sorted_insertionSort _ l
  have hstrictSorted : ∀ l : List (String × PropsTableRow), (l.map Prod.fst).Nodup →
      (sortedPropEntries l).Pairwise (fun a b => propsSortLe a b ∧ a.1 ≠ b.1) := by
    intro l hl
    have hnd : ((sortedPropEntries l).map Prod.fst).Nodup :=
      (List.Perm.nodup_iff ((hperm l).map Prod.fst)).mpr hl
    have hpne : (sortedPropEntries l).Pairwise (fun a b => a.1 ≠ b.1) :=
      (List.pairwise_map).mp hnd
    exact (hsorted l).and hpne
  refine ⟨?_, ?_, ?_⟩
  · rw [hprops]
    exact hperm _
  · rw [hprops]
    exact (hstrictSorted api.propsTable hnodup).imp fun h => propsSortLe_strict _ _ h.1 h.2
  · intro l2 hl2
    have h2nodup : (l2.map Prod.fst).Nodup :=
      (List.Perm.nodup_iff (hl2.map Prod.fst)).mpr hnodup
    have hperm12 : (sortedPropEntries l2).Perm (sortedPropEntries api.propsTable) :=
      ((hperm l2).trans hl2).trans (hperm api.propsTable).symm
    exact @List.eq_of_perm_of_sorted _ (fun a b => propsSortLe a b ∧ a.1 ≠ b.1)
      ⟨propsSortLt_antisymm⟩ _ _ hperm12
      (hstrictSorted l2 h2nodup) (hstrictSorted api.propsTable hnodup)

def rowRequired : PropsTableRow :=
  { type := { name := "node", description := none }, required := true }

def rowOptional : PropsTableRow :=
  { type := { name := "node", description := none } }

def sortWitnessApi : ReactApiModel :=
  { name := "X"
    propsTable := [("b", rowOptional), ("a", rowRequired), ("c", rowOptional)] }

theorem propsTable_sorted_required_first_then_name_witness :
    (generateApiPageContent id sortWitnessApi).props.Perm sortWitnessApi.propsTable ∧
    (generateApiPageContent id sortWitnessApi).props.Pairwise (fun a b =>
      (a.2.required = true ∧ b.2.required = false) ∨
      (a.2.required = b.2.required ∧ lexLt a.1.data b.1.data = true)) ∧
    sortedPropEntries [("a", rowRequired), ("c", rowOptional), ("b", rowOptional)] =
      sortedPropEntries sortWitnessApi.propsTable :=
  ⟨(propsTable_sorted_required_first_then_name id sortWitnessApi (by decide)).1,
   (propsTable_sorted_required_first_then_name id sortWitnessApi (by decide)).2.1,
   (propsTable_sorted_required_first_then_name id sortWitnessApi (by decide)).2.2
     [("a", rowRequired), ("c", rowOptional), ("b", rowOptional)] (by decide)⟩

/-! ## Translation files: overwrite-`en`, exclusive-create others -/

lemma translationFilePath_data (kebab : String → String)
    (outputDirectory name lang : String) :
    (translationFilePath kebab outputDirectory name lang).data =
      (outputDirectory ++ "/" ++ kebab name ++ "/" ++ kebab name).data ++
        ((if lang = "en" then ("" : String) else "-" ++ lang).data ++ ".json".data) := by
  unfold translationFilePath
  rw [String.data_append, String.data_append, List.append_assoc]

lemma translationFilePath_inj (kebab : String → String) (outputDirectory name : String)
    (l1 l2 : String) (h1 : l1 ≠ "en")
    (h : translationFilePath kebab outputDirectory name l1 =
      translationFilePath kebab outputDirectory name l2) : l1 = l2 := by
  have hd := congrArg String.data h
  rw [translationFilePath_data, translationFilePath_data] at hd
  have hd2 := List.append_cancel_left hd
  rw [if_neg h1] at hd2
  by_cases h2 : l2 = "en"
  · exfalso
    rw [if_pos h2] at hd2
    have hform : ('-' :: l1.data) ++ ".json".data = ".json".data := by
      have he : ("-" ++ l1).data = '-' :: l1.data := by simp [String.data_append]
      rw [← he]
      simp at hd2
    have hlen := congrArg List.length hform
    simp at hlen
  · rw [if_neg h2] at hd2
    have hentry : ('-' :: l1.data) ++ ".json".data = ('-' :: l2.data) ++ ".json".data := by
      have e1 : ("-" ++ l1).data = '-' :: l1.data := by simp [String.data_append]
      have e2 : ("-" ++ l2).data = '-' :: l2.data := by simp [String.data_append]
      rw [← e1, ← e2]
      exact hd2
    simp only [List.cons_append, List.cons.injEq] at hentry
    exact String.ext (List.append_cancel_right hentry.2)

lemma translationWriteStep_preserves (kebab : String → String)
    (content outputDirectory name : String) (fs : FS) (lang p c : String)
    (h : fs p = some c) :
    translationWriteStep kebab content outputDirectory name fs lang p = some c := by
  unfold translationWriteStep
  split
  · exact h
  · unfold writeFsExclusive
    cases hfp : fs (translationFilePath kebab outputDirectory name lang) with
    | some old => exact h
    | none =>
      show (if p = translationFilePath kebab outputDirectory name lang then some content
        else fs p) = some c
      by_cases hpe : p = translationFilePath kebab outputDirectory name lang
      · rw [hpe] at h
        rw [h] at hfp
        cases hfp
      · rw [if_neg hpe]
        exact h

lemma translationWriteStep_cases (kebab : String → String)
    (content outputDirectory name : String) (fs : FS) (lang p : String) :
    translationWriteStep kebab content outputDirectory name fs lang p = fs p ∨
    translationWriteStep kebab content outputDirectory name fs lang p = some content := by
  unfold translationWriteStep
  split
  · exact Or.inl rfl
  · unfold writeFsExclusive
    cases hfp : fs (translationFilePath kebab outputDirectory name lang) with
    | some old => exact Or.inl rfl
    | none =>
      by_cases hpe : p = translationFilePath kebab outputDirectory name lang
      · refine Or.inr ?_
        show (if p = translationFilePath kebab outputDirectory name lang then some content
          else fs p) = some content
        rw [if_pos hpe]
      · refine Or.inl ?_
        show (if p = translationFilePath kebab outputDirectory name lang then some content
          else fs p) = fs p
        rw [if_neg hpe]

lemma foldl_translationWriteStep_preserves (kebab : String → String)
    (content outputDirectory name : String) :
    ∀ (langs : List String) (fs : FS) (p c : String), fs p = some c →
      (langs.foldl (translationWriteStep kebab content outputDirectory name) fs) p = some c := by
  intro langs
  induction langs with
  | nil => intro fs p c h; exact h
  | cons l ls ih =>
    intro fs p c h
    exact ih _ p c (translationWriteStep_preserves kebab content outputDirectory name fs l p c h)

lemma foldl_translationWriteStep_creates (kebab : String → String)
    (content outputDirectory name : String) :
    ∀ (langs : List String) (fs : FS) (lang : String), lang ∈ langs → lang ≠ "en" →
      fs (translationFilePath kebab outputDirectory name lang) = none →
      (langs.foldl (translationWriteStep kebab content outputDirectory name) fs)
        (translationFilePath kebab outputDirectory name lang) = some content := by
  intro langs
  induction langs with
  | nil => intro fs lang h; cases h
  | cons l ls ih =>
    intro fs lang hmem hne hnone
    rcases List.mem_cons.mp hmem with rfl | hmem2
    · have hstep : translationWriteStep kebab content outputDirectory name fs lang
          (translationFilePath kebab outputDirectory name lang) = some content := by
        unfold translationWriteStep
        rw [if_neg hne]
        unfold writeFsExclusive
        rw [hnone]
        simp [writeFs]
      exact foldl_translationWriteStep_preserves kebab content outputDirectory name ls _ _ _
        hstep
    · rcases translationWriteStep_cases kebab content outputDirectory name fs l
          (translationFilePath kebab outputDirectory name lang) with hc | hc
      · exact ih _ lang hmem2 hne (by rw [hc]; exact hnone)
      · exact foldl_translationWriteStep_preserves kebab content outputDirectory name ls _ _ _
          hc

/-- C8: `generateApiTranslations` always (over)writes the `en` bundle; for
every other language the write is an exclusive create: an existing file keeps
its content unchanged, a missing file is seeded with the bundle. -/
theorem generateApiTranslations_en_overwrites_others_exclusive
    (kebab : String → String) (stringify : Translations → String)
    (outputDirectory : String) (api : ReactApiModel) (languages : List String) (fs : FS) :
    (generateApiTranslations kebab stringify outputDirectory api languages fs
        (translationFilePath kebab outputDirectory api.name "en") =
      some (stringify api.translations)) ∧
    (∀ lang ∈ languages, lang ≠ "en" →
      (∀ c0, fs (translationFilePath kebab outputDirectory api.name lang) = some c0 →
        generateApiTranslations kebab stringify outputDirectory api languages fs
          (translationFilePath kebab outputDirectory api.name lang) = some c0) ∧
      (fs (translationFilePath kebab outputDirectory api.name lang) = none →
        generateApiTranslations kebab stringify outputDirectory api languages fs
          (translationFilePath kebab outputDirectory api.name lang) =
            some (stringify api.translations))) := by
  have henw : ∀ q, writeFs fs (translationFilePath kebab outputDirectory api.name "en")
      (stringify api.translations) q =
        if q = translationFilePath kebab outputDirectory api.name "en" then
          some (stringify api.translations) else fs q := fun _ => rfl
  constructor
  · show (languages.foldl
        (translationWriteStep kebab (stringify api.translations) outputDirectory api.name)
        (writeFs fs (translationFilePath kebab outputDirectory api.name "en")
          (stringify api.translations)))
        (translationFilePath kebab outputDirectory api.name "en") =
      some (stringify api.translations)
    apply foldl_translationWriteStep_preserves
    rw [henw, if_pos rfl]
  · intro lang hmem hne
    have hne2 : translationFilePath kebab outputDirectory api.name lang ≠
        translationFilePath kebab outputDirectory api.name "en" := by
      intro hcontra
      exact hne (translationFilePath_inj kebab outputDirectory api.name lang "en" hne
        hcontra)
    constructor
    · intro c0 hc0
      show (languages.foldl
          (translationWriteStep kebab (stringify api.translations) outputDirectory api.name)
          (writeFs fs (translationFilePath kebab outputDirectory api.name "en")
            (stringify api.translations)))
          (translationFilePath kebab outputDirectory api.name lang) = some c0
      apply foldl_translationWriteStep_preserves
      rw [henw, if_neg hne2]
      exact hc0
    · intro hnone
      show (languages.foldl
          (translationWriteStep kebab (stringify api.translations) outputDirectory api.name)
          (writeFs fs (translationFilePath kebab outputDirectory api.name "en")
            (stringify api.translations)))
          (translationFilePath kebab outputDirectory api.name lang) =
        some (stringify api.translations)
      apply foldl_translationWriteStep_creates kebab _ outputDirectory api.name languages _
        lang hmem hne
      rw [henw, if_neg hne2]
      exact hnone

def fsWithGerman : FS :=
  fun p => if p = "out/X/X-de.json" then some "OLD" else none

def translationsApi : ReactApiModel :=
  { name := "X" }

theorem generateApiTranslations_en_overwrites_others_exclusive_witness :
    (generateApiTranslations id (fun _ => "JSON") "out" translationsApi ["en", "de", "fr"]
        fsWithGerman (translationFilePath id "out" translationsApi.name "en") =
      some "JSON") ∧
    (generateApiTranslations id (fun _ => "JSON") "out" translationsApi ["en", "de", "fr"]
        fsWithGerman (translationFilePath id "out" translationsApi.name "de") =
      some "OLD") ∧
    (generateApiTranslations id (fun _ => "JSON") "out" translationsApi ["en", "de", "fr"]
        fsWithGerman (translationFilePath id "out" translationsApi.name "fr") =
      some "JSON") :=
  ⟨(generateApiTranslations_en_overwrites_others_exclusive id (fun _ => "JSON") "out"
      translationsApi ["en", "de", "fr"] fsWithGerman).1,
   ((generateApiTranslations_en_overwrites_others_exclusive id (fun _ => "JSON") "out"
      translationsApi ["en", "de", "fr"] fsWithGerman).2 "de" (by decide) (by decide)).1
     "OLD" (by decide),
   ((generateApiTranslations_en_overwrites_others_exclusive id (fun _ => "JSON") "out"
      translationsApi ["en", "de", "fr"] fsWithGerman).2 "fr" (by decide) (by decide)).2
     (by decide)⟩

/-! ## Missing demos abort the component build -/

/-- C5: when the earlier stages succeed, a component with an empty demo list
makes `generateComponentApi` throw the missing-demo error, whose message
names the component, before any artifact write (the error result carries no
file system); with at least one demo the pipeline never fails with the
missing-demo error. -/
theorem generateComponentApi_missing_demos_fails (env : PipelineEnv)
    (info : ComponentInfoData) (settings : ProjectSettingsData) (fs : FS)
    (hskip : info.shouldSkip = false) (raw : RawApi)
    (hparse : parseComponentSource env.docgen info.name info.isSystemComponent = .ok raw) :
    (info.demos = [] →
      generateComponentApi env info settings fs =
        .error (.missingDemos info.name) ∧
      ∃ pre post, (BuildError.missingDemos info.name).message =
        pre ++ info.name ++ post) ∧
    (info.demos ≠ [] →
      ∀ e, generateComponentApi env info settings fs = .error e →
        ∀ n, e ≠ BuildError.missingDemos n) := by
  constructor
  · intro hdemos
    constructor
    · simp only [generateComponentApi, hskip, hparse]
      simp [hdemos]
    · refine ⟨"Unable to find demos. \n" ++ "Be sure to include `components: ",
        "` in the markdown pages where the `" ++ info.name ++
          "` component is relevant. " ++ "Every public component should have a demo. ", ?_⟩
      simp [BuildError.message, missingDemosMessage, String.append_assoc]
  · intro hdemos e he n hcontra
    subst hcontra
    have hne : info.demos.isEmpty = false := by
      cases hd : info.demos with
      | nil => exact absurd hd hdemos
      | cons a l => rfl
    simp only [generateComponentApi, hskip, hparse] at he
    rw [hne] at he
    simp only [Bool.false_eq_true, if_false] at he
    split at he
    · have hinj := Except.error.inj he
      cases hinj
    · split at he
      · cases he
      · cases he

def c5raw : RawApi :=
  { description := "The widget.", props := [("bad", witnessRawProp)] }

def c5docgen : DocgenEnv :=
  { ast := []
    resolveFinder := fun _ => .error noSuitableMsg
    parseDefault := .ok c5raw }

def c5env : PipelineEnv :=
  { docgen := c5docgen
    testInfo := {}
    ext := failTwoExt }

def noDemosInfo : ComponentInfoData :=
  { name := "Widget" }

def withDemosInfo : ComponentInfoData :=
  { name := "Widget", demos := [{ demoPageTitle := "T", demoPathname := "/t/" }] }

theorem generateComponentApi_missing_demos_fails_witness :
    (generateComponentApi c5env noDemosInfo {} (fun _ => none) =
        .error (.missingDemos "Widget") ∧
      ∃ pre post, (BuildError.missingDemos "Widget").message = pre ++ "Widget" ++ post) ∧
    (∀ n, BuildError.propDescriptions
        (propErrorsMessage [(formatPropRef "Widget" "bad", "bad bad")]) ≠
      BuildError.missingDemos n) :=
  ⟨(generateComponentApi_missing_demos_fails c5env noDemosInfo {} (fun _ => none)
      rfl c5raw rfl).1 rfl,
   fun n => (generateComponentApi_missing_demos_fails c5env withDemosInfo {} (fun _ => none)
      rfl c5raw rfl).2 (by decide)
      (BuildError.propDescriptions (propErrorsMessage [(formatPropRef "Widget" "bad", "bad bad")]))
      rfl n⟩

/-! ## Class-condition extraction -/

/-- C3 counterexample: for `"Styles applied to the root element if dense."`
the first branch of `extractClassConditions` applies (the condition group is
non-empty), and it records `nodeName = "the root element"` — the root-element
exemption of the claim does not exist in the condition branch, only in the
condition-less one.  The condition text `"dense"` is recorded as claimed. -/
theorem extractClassConditions_root_element_counterexample :
    (extractClassConditions (fun s => s)
        [("dense", "Styles applied to the root element if dense.")]).map
      (fun e => (e.1, e.2.nodeName, e.2.conditions, e.2.description)) =
      [("dense", some "the root element", some "dense",
        "Styles applied to \x7b\x7bnodeName\x7d\x7d if \x7b\x7bconditions\x7d\x7d.")] := by
  decide

/-- C3 (amended): whenever the class-description pattern matches with a
non-empty condition group, `extractClassConditions` records the condition
text (backtick spans rewritten to `<code>`, then markdown-rendered) and also
records the `nodeName` — even when the target is `the root element`; the
root-element exemption applies only when no condition group matched, in
which case a root-element target records neither `nodeName` nor
`conditions`. -/
theorem extractClassConditions_condition_branch_spec
    (rm : String → String) (className description : String) (hclass : className ≠ "")
    (pre : List Char) (g : StylesGroups) (post : List Char)
    (hmatch : findStylesMatch [] description.data = some (pre, g, post)) :
    (∀ sep cond, g.sepCond = some (sep, cond) → cond ≠ [] →
      extractClassConditions rm [(className, description)] =
        [(className,
          { description := rm ⟨pre ++ g.g1 ++ "\x7b\x7bnodeName\x7d\x7d".data ++ sep ++
              "\x7b\x7bconditions\x7d\x7d".data ++ ['.'] ++ post⟩
            conditions := some (rm ⟨codeTickReplace cond⟩)
            nodeName := some (rm ⟨g.target⟩) })]) ∧
    (g.sepCond = none → g.target = "the root element".data →
      extractClassConditions rm [(className, description)] =
        [(className, { description := rm description })]) := by
  constructor
  · intro sep cond hsc hcond
    simp only [extractClassConditions, List.filterMap_cons, List.filterMap_nil,
      if_neg hclass, hmatch, hsc, if_pos hcond]
  · intro hsc htarget
    simp only [extractClassConditions, List.filterMap_cons, List.filterMap_nil,
      if_neg hclass, hmatch, hsc, htarget]
    simp

def denseGroups : StylesGroups :=
  { g1 := "Styles".data ++ " applied to ".data
    target := "the root element".data
    sepCond := some (" if ".data, "dense".data) }

def rootGroups : StylesGroups :=
  { g1 := "Styles".data ++ " applied to ".data
    target := "the root element".data
    sepCond := none }

theorem extractClassConditions_condition_branch_spec_witness :
    (extractClassConditions id
        [("dense", "Styles applied to the root element if dense.")] =
      [("dense",
        { description := id ⟨([] : List Char) ++ denseGroups.g1 ++
            "\x7b\x7bnodeName\x7d\x7d".data ++ " if ".data ++
            "\x7b\x7bconditions\x7d\x7d".data ++ ['.'] ++ []⟩
          conditions := some (id ⟨codeTickReplace "dense".data⟩)
          nodeName := some (id ⟨denseGroups.target⟩) })]) ∧
    (extractClassConditions id [("root", "Styles applied to the root element.")] =
      [("root", { description := id "Styles applied to the root element." })]) :=
  ⟨(extractClassConditions_condition_branch_spec id "dense"
      "Styles applied to the root element if dense." (by decide) [] denseGroups []
      (by decide)).1 " if ".data "dense".data rfl (by decide),
   (extractClassConditions_condition_branch_spec id "root"
      "Styles applied to the root element." (by decide) [] rootGroups []
      (by decide)).2 rfl rfl⟩

/-! ## Idempotence of strip-and-annotate -/

lemma dropWhile_eq_self_head (p : Char → Bool) (l : List Char)
    (h : List.dropWhile p l = l) : ∀ c, l.head? = some c → p c = false := by
  intro c hc
  cases l with
  | nil => cases hc
  | cons a as =>
    have hac : a = c := by
      simpa using hc
    subst hac
    by_cases hp : p a = true
    · exfalso
      rw [List.dropWhile_cons_of_pos hp] at h
      have h1 := congrArg List.length h
      have h2 := (List.dropWhile_suffix p (l := as)).length_le
      simp at h1
      omega
    · simpa using hp

lemma trim_fixed_parts (t : List Char) (htrim : trimChars t = t) :
    List.dropWhile jsIsWs t = t ∧
    List.dropWhile jsIsWs t.reverse = t.reverse := by
  have hpart1 : List.dropWhile jsIsWs t = t := by
    have hsuf1 : List.dropWhile jsIsWs t <:+ t := List.dropWhile_suffix jsIsWs
    have hsuf2 : List.dropWhile jsIsWs (List.dropWhile jsIsWs t).reverse <:+
        (List.dropWhile jsIsWs t).reverse := List.dropWhile_suffix jsIsWs
    have hlen := congrArg List.length htrim
    unfold trimChars at hlen
    have l2 := hsuf2.length_le
    have l1 := hsuf1.length_le
    simp only [List.length_reverse] at hlen l2
    exact hsuf1.eq_of_length (by omega)
  refine ⟨hpart1, ?_⟩
  unfold trimChars at htrim
  rw [hpart1] at htrim
  have := congrArg List.reverse htrim
  simpa using this

lemma trim_fixed_getLast (t : List Char) (htrim : trimChars t = t) :
    ∀ c, t.getLast? = some c → jsIsWs c = false := by
  intro c hc
  apply dropWhile_eq_self_head jsIsWs t.reverse (trim_fixed_parts t htrim).2
  rw [List.head?_reverse]
  exact hc

lemma trimChars_append_nls (t : List Char) (ht : t ≠ []) (htrim : trimChars t = t) :
    trimChars (t ++ ['\n', '\n']) = t := by
  obtain ⟨h1, h2⟩ := trim_fixed_parts t htrim
  unfold trimChars
  have hfront : List.dropWhile jsIsWs (t ++ ['\n', '\n']) = t ++ ['\n', '\n'] := by
    cases t with
    | nil => exact absurd rfl ht
    | cons a as =>
      have ha : jsIsWs a = false := dropWhile_eq_self_head jsIsWs (a :: as) h1 a rfl
      rw [List.cons_append, List.dropWhile_cons_of_neg (by simp [ha])]
  rw [hfront]
  have hrev : (t ++ ['\n', '\n']).reverse = '\n' :: '\n' :: t.reverse := by
    simp
  rw [hrev]
  rw [List.dropWhile_cons_of_pos (by simp [jsIsWs]),
    List.dropWhile_cons_of_pos (by simp [jsIsWs]), h2]
  simp

lemma splitNl_ne_nil : ∀ l : List Char, splitNl l ≠ [] := by
  intro l
  cases l with
  | nil => simp [splitNl]
  | cons c tl =>
    simp only [splitNl]
    split
    · simp
    · simp

lemma joinLines_cons_of_ne_nil (a : List Char) (L : List (List Char)) (h : L ≠ []) :
    joinLines (a :: L) = a ++ '\n' :: joinLines L := by
  cases L with
  | nil => exact absurd rfl h
  | cons b L2 => rfl

lemma joinLines_splitNl : ∀ l : List Char, joinLines (splitNl l) = l := by
  intro l
  induction l with
  | nil => rfl
  | cons c tl ih =>
    simp only [splitNl]
    split
    · rename_i hc
      rw [joinLines_cons_of_ne_nil _ _ (splitNl_ne_nil tl), ih, hc]
      rfl
    · rename_i hc
      cases hs : splitNl tl with
      | nil => exact absurd hs (splitNl_ne_nil tl)
      | cons h0 rest =>
        rw [hs] at ih
        cases rest with
        | nil =>
          simp only [hs, List.headD_cons, List.tail_cons]
          simp only [joinLines] at ih ⊢
          rw [ih]
        | cons h1 rest2 =>
          simp only [hs, List.headD_cons, List.tail_cons]
          rw [joinLines_cons_of_ne_nil _ _ (by simp), List.cons_append]
          rw [joinLines_cons_of_ne_nil _ _ (by simp)] at ih
          rw [ih]

lemma joinLines_append : ∀ (A B : List (List Char)), A ≠ [] → B ≠ [] →
    joinLines (A ++ B) = joinLines A ++ '\n' :: joinLines B := by
  intro A
  induction A with
  | nil => intro B hA _; exact absurd rfl hA
  | cons a A2 ih =>
    intro B _ hB
    cases A2 with
    | nil =>
      rw [List.singleton_append, joinLines_cons_of_ne_nil a B hB]
      rfl
    | cons a2 A3 =>
      rw [List.cons_append, joinLines_cons_of_ne_nil a ((a2 :: A3) ++ B) (by simp),
        joinLines_cons_of_ne_nil a (a2 :: A3) (by simp), ih B (by simp) hB,
        List.append_assoc]
      rfl

lemma splitNl_cons (c : Char) (tl : List Char) :
    splitNl (c :: tl) = if c = '\n' then [] :: splitNl tl
      else (c :: (splitNl tl).headD []) :: (splitNl tl).tail := rfl

lemma splitNl_getLastD_ne_nil : ∀ l : List Char, l ≠ [] →
    (∀ c, l.getLast? = some c → c ≠ '\n') → (splitNl l).getLastD [] ≠ [] := by
  intro l
  induction l with
  | nil => intro h; exact absurd rfl h
  | cons c tl ih =>
    intro _ hlast
    cases tl with
    | nil =>
      have hc : c ≠ '\n' := hlast c rfl
      rw [splitNl_cons, if_neg hc]
      simp [splitNl]
    | cons d tl2 =>
      have htl : (splitNl (d :: tl2)).getLastD [] ≠ [] := by
        apply ih (by simp)
        intro e he
        apply hlast e
        rw [List.getLast?_cons_cons]
        exact he
      rw [splitNl_cons]
      cases hs : splitNl (d :: tl2) with
      | nil => exact absurd hs (splitNl_ne_nil _)
      | cons h0 rest =>
        rw [hs] at htl
        split
        · simpa using htl
        · cases rest with
          | nil => simp
          | cons h1 rest2 => simpa using htl

lemma prefix_append_split {k s C : List Char} (h : k <+: s ++ C) :
    k <+: s ∨ (s <+: k ∧ k.drop s.length <+: C) := by
  rcases h with ⟨r, hr⟩
  by_cases hle : k.length ≤ s.length
  · left
    have h1 : (k ++ r).take k.length = k := List.take_left k r
    rw [hr, List.take_append_of_le_length hle] at h1
    exact h1 ▸ List.take_prefix k.length s
  · right
    have hsl : s.length ≤ k.length := by omega
    constructor
    · have h1 : (k ++ r).take s.length = k.take s.length :=
        List.take_append_of_le_length hsl
      rw [hr, List.take_left] at h1
      exact h1 ▸ List.take_prefix s.length k
    · have h1 : (k ++ r).drop s.length = k.drop s.length ++ r :=
        List.drop_append_of_le_length hsl
      rw [hr, List.drop_left] at h1
      exact ⟨r, h1.symm⟩

lemma prefix_key_of_append (k s R : List Char) (hk : '\n' ∉ k)
    (h : k <+: s ++ '\n' :: R) : k <+: s := by
  rcases prefix_append_split h with h1 | ⟨h1, h2⟩
  · exact h1
  · by_cases hd : k.drop s.length = []
    · have hlen : k.length ≤ s.length := by
        have := congrArg List.length hd
        simp at this
        omega
      have : s = k := h1.eq_of_length (by
        have := h1.length_le
        omega)
      rw [← this]
    · exfalso
      cases hd2 : k.drop s.length with
      | nil => exact hd hd2
      | cons c cs =>
        rcases h2 with ⟨r, hr⟩
        rw [hd2] at hr
        have hc : c = '\n' := by
          have := congrArg List.head? hr
          simpa using this
        have hmem : c ∈ k := by
          apply List.mem_of_mem_drop (n := s.length)
          rw [hd2]
          exact List.mem_cons_self c cs
        rw [hc] at hmem
        exact hk hmem

lemma nlnl_append_false (s R : List Char) (hs : nlnl s = false) (hne : s ≠ [])
    (hlast : ∀ c, s.getLast? = some c → jsIsWs c = false) :
    nlnl (s ++ '\n' :: '\n' :: R) = false := by
  rcases s with _ | ⟨c, s1⟩
  · exact absurd rfl hne
  rcases s1 with _ | ⟨d, s2⟩
  · by_cases hc : c = '\r'
    · subst hc
      exact absurd (hlast '\r' rfl) (by simp [jsIsWs])
    · by_cases hc2 : c = '\n'
      · subst hc2
        exact absurd (hlast '\n' rfl) (by simp [jsIsWs])
      · simp [nlnl, matchNl, hc, hc2]
  · by_cases hc : c = '\r'
    · subst hc
      by_cases hd : d = '\n'
      · subst hd
        rcases s2 with _ | ⟨e, s3⟩
        · exact absurd (hlast '\n' rfl) (by simp [jsIsWs])
        · by_cases he : e = '\n'
          · subst he
            exfalso
            simp [nlnl, matchNl] at hs
          · by_cases he2 : e = '\r'
            · subst he2
              rcases s3 with _ | ⟨f, s4⟩
              · exact absurd (hlast '\r' rfl) (by simp [jsIsWs])
              · by_cases hf : f = '\n'
                · subst hf
                  exfalso
                  simp [nlnl, matchNl] at hs
                · simp [nlnl, matchNl, hf]
            · simp [nlnl, matchNl, he, he2]
      · simp [nlnl, matchNl, hd]
    · by_cases hc2 : c = '\n'
      · subst hc2
        by_cases hd : d = '\n'
        · subst hd
          exfalso
          simp [nlnl, matchNl] at hs
        · by_cases hd2 : d = '\r'
          · subst hd2
            rcases s2 with _ | ⟨e, s3⟩
            · exact absurd (hlast '\r' rfl) (by simp [jsIsWs])
            · by_cases he : e = '\n'
              · subst he
                exfalso
                simp [nlnl, matchNl] at hs
              · simp [nlnl, matchNl, he]
          · simp [nlnl, matchNl, hd, hd2]
      · simp [nlnl, matchNl, hc, hc2]

lemma trailerAt_append_false (s R : List Char)
    (hs : trailerAt s = false)
    (hlast : ∀ c, s.getLast? = some c → jsIsWs c = false)
    (hD : ¬ demosKeyChars <:+ s) (hA : ¬ apiKeyChars <:+ s) :
    trailerAt (s ++ '\n' :: '\n' :: R) = false := by
  by_cases hDp : demosKeyChars.isPrefixOf (s ++ '\n' :: '\n' :: R) = true
  · rcases prefix_key_of_append _ _ _ (by decide)
      (List.isPrefixOf_iff_prefix.mp hDp) with ⟨s2, hs2⟩
    subst hs2
    have hs2ne : s2 ≠ [] := by
      intro hnil
      subst hnil
      exact hD (by simp)
    have hpre : demosKeyChars.isPrefixOf (demosKeyChars ++ s2) = true :=
      List.isPrefixOf_iff_prefix.mpr ⟨s2, rfl⟩
    have hdrop : (demosKeyChars ++ s2).drop 6 = s2 := by
      have h6 : demosKeyChars.length = 6 := rfl
      rw [← h6, List.drop_left]
    have hs' : nlnl s2 = false := by
      unfold trailerAt trailerKeyRest at hs
      rw [if_pos hpre] at hs
      rw [hdrop] at hs
      exact hs
    have hpre2 : demosKeyChars.isPrefixOf
        ((demosKeyChars ++ s2) ++ '\n' :: '\n' :: R) = true :=
      List.isPrefixOf_iff_prefix.mpr ⟨s2 ++ '\n' :: '\n' :: R, by simp⟩
    have hdrop2 : ((demosKeyChars ++ s2) ++ '\n' :: '\n' :: R).drop 6 =
        s2 ++ '\n' :: '\n' :: R := by
      have h6 : demosKeyChars.length = 6 := rfl
      rw [List.append_assoc, ← h6, List.drop_left]
    unfold trailerAt trailerKeyRest
    rw [if_pos hpre2]
    rw [hdrop2]
    apply nlnl_append_false s2 R hs' hs2ne
    intro c hc
    apply hlast c
    rw [List.getLast?_append_of_ne_nil _ hs2ne]
    exact hc
  · by_cases hAp : apiKeyChars.isPrefixOf (s ++ '\n' :: '\n' :: R) = true
    · rcases prefix_key_of_append _ _ _ (by decide)
        (List.isPrefixOf_iff_prefix.mp hAp) with ⟨s2, hs2⟩
      subst hs2
      have hs2ne : s2 ≠ [] := by
        intro hnil
        subst hnil
        exact hA (by simp)
      have hDs : demosKeyChars.isPrefixOf (apiKeyChars ++ s2) = false := by
        by_contra hcon
        simp only [Bool.not_eq_false] at hcon
        rcases List.isPrefixOf_iff_prefix.mp hcon with ⟨r, hr⟩
        apply absurd hDp
        simp only [not_not]
        apply List.isPrefixOf_iff_prefix.mpr
        exact ⟨r ++ '\n' :: '\n' :: R, by rw [← List.append_assoc, hr]⟩
      have hpre : apiKeyChars.isPrefixOf (apiKeyChars ++ s2) = true :=
        List.isPrefixOf_iff_prefix.mpr ⟨s2, rfl⟩
      have hdrop : (apiKeyChars ++ s2).drop 4 = s2 := by
        have h4 : apiKeyChars.length = 4 := rfl
        rw [← h4, List.drop_left]
      have hs' : nlnl s2 = false := by
        unfold trailerAt trailerKeyRest at hs
        rw [if_neg (by simp [hDs]), if_pos hpre] at hs
        rw [hdrop] at hs
        exact hs
      have hDp2 : demosKeyChars.isPrefixOf
          ((apiKeyChars ++ s2) ++ '\n' :: '\n' :: R) ≠ true := hDp
      have hpre2 : apiKeyChars.isPrefixOf
          ((apiKeyChars ++ s2) ++ '\n' :: '\n' :: R) = true :=
        List.isPrefixOf_iff_prefix.mpr ⟨s2 ++ '\n' :: '\n' :: R, by simp⟩
      have hdrop2 : ((apiKeyChars ++ s2) ++ '\n' :: '\n' :: R).drop 4 =
          s2 ++ '\n' :: '\n' :: R := by
        have h4 : apiKeyChars.length = 4 := rfl
        rw [List.append_assoc, ← h4, List.drop_left]
      unfold trailerAt trailerKeyRest
      rw [if_neg hDp2, if_pos hpre2]
      rw [hdrop2]
      apply nlnl_append_false s2 R hs' hs2ne
      intro c hc
      apply hlast c
      rw [List.getLast?_append_of_ne_nil _ hs2ne]
      exact hc
    · unfold trailerAt trailerKeyRest
      rw [if_neg hDp, if_neg hAp]

lemma demosKeyChars_eq : demosKeyChars = ['D', 'e', 'm', 'o', 's', ':'] := rfl

lemma trailerIndex_cons (c : Char) (tl : List Char) :
    trailerIndex (c :: tl) = if trailerAt (c :: tl) then some 0
      else (trailerIndex tl).map (· + 1) := rfl

lemma trailerIndex_none_suffix : ∀ l : List Char, trailerIndex l = none →
    ∀ s, s <:+ l → trailerAt s = false := by
  intro l
  induction l with
  | nil =>
    intro _ s hs
    rw [List.suffix_nil.mp hs]
    rfl
  | cons c tl ih =>
    intro h s hs
    have h1 : trailerAt (c :: tl) = false := by
      by_contra hcon
      simp only [Bool.not_eq_false] at hcon
      rw [trailerIndex_cons, if_pos hcon] at h
      cases h
    have h2 : trailerIndex tl = none := by
      rw [trailerIndex_cons, if_neg (by simp [h1])] at h
      cases ht : trailerIndex tl with
      | none => rfl
      | some i =>
        rw [ht] at h
        cases h
    rcases List.suffix_cons_iff.mp hs with rfl | hs2
    · exact h1
    · exact ih h2 s hs2

lemma trailerIndex_append_demos (t R2 : List Char)
    (h : ∀ s, s <:+ t → s ≠ [] →
      trailerAt (s ++ '\n' :: '\n' :: (demosKeyChars ++ '\n' :: '\n' :: R2)) = false) :
    trailerIndex (t ++ '\n' :: '\n' :: (demosKeyChars ++ '\n' :: '\n' :: R2)) =
      some (t.length + 2) := by
  induction t with
  | nil =>
    rw [List.nil_append]
    have h0 : trailerAt ('\n' :: '\n' :: (demosKeyChars ++ '\n' :: '\n' :: R2)) = false := by
      simp [trailerAt, trailerKeyRest, demosKeyChars_eq, apiKeyChars, List.isPrefixOf]
    have h1 : trailerAt ('\n' :: (demosKeyChars ++ '\n' :: '\n' :: R2)) = false := by
      simp [trailerAt, trailerKeyRest, demosKeyChars_eq, apiKeyChars, List.isPrefixOf]
    have h2 : trailerAt (demosKeyChars ++ '\n' :: '\n' :: R2) = true := by
      have hpre : demosKeyChars.isPrefixOf (demosKeyChars ++ '\n' :: '\n' :: R2) = true :=
        List.isPrefixOf_iff_prefix.mpr ⟨'\n' :: '\n' :: R2, rfl⟩
      unfold trailerAt trailerKeyRest
      rw [if_pos hpre]
      have hdrop : (demosKeyChars ++ '\n' :: '\n' :: R2).drop 6 = '\n' :: '\n' :: R2 := by
        have h6 : demosKeyChars.length = 6 := rfl
        rw [← h6, List.drop_left]
      rw [hdrop]
      simp [nlnl, matchNl]
    rw [trailerIndex_cons, if_neg (by simp [h0])]
    rw [trailerIndex_cons, if_neg (by simp [h1])]
    have h3 : trailerIndex (demosKeyChars ++ '\n' :: '\n' :: R2) = some 0 := by
      rw [demosKeyChars_eq, List.cons_append, trailerIndex_cons, if_pos ?hat]
      case hat =>
        rw [← List.cons_append, ← demosKeyChars_eq]
        exact h2
    rw [h3]
    rfl
  | cons c t' ih =>
    rw [List.cons_append, trailerIndex_cons, if_neg ?hfalse]
    case hfalse =>
      have := h (c :: t') (List.suffix_refl _) (by simp)
      rw [List.cons_append] at this
      simp [this]
    rw [ih ?hsub]
    case hsub =>
      intro s hs hne
      exact h s (hs.trans (List.suffix_cons c t')) hne
    simp only [Option.map_some']
    rw [List.length_cons]

lemma joinLines_annotation_shape (A0 D AP I : List (List Char)) (hA : A0 ≠ []) :
    joinLines ((A0 ++ [[]]) ++ ["Demos:".data, []] ++ D ++ [[]] ++
        ["API:".data, []] ++ AP ++ I) =
      joinLines A0 ++ '\n' :: '\n' :: (demosKeyChars ++ '\n' :: '\n' ::
        joinLines (D ++ [[]] ++ ["API:".data, []] ++ AP ++ I)) := by
  have hB : D ++ [[]] ++ ["API:".data, []] ++ AP ++ I ≠ [] := by simp
  have hre : (A0 ++ [[]]) ++ ["Demos:".data, []] ++ D ++ [[]] ++
      ["API:".data, []] ++ AP ++ I =
      (A0 ++ [[]]) ++ ("Demos:".data :: [] ::
        (D ++ [[]] ++ ["API:".data, []] ++ AP ++ I)) := by
    simp [List.append_assoc]
  rw [hre]
  rw [joinLines_append _ _ (by simp) (by simp)]
  rw [joinLines_append A0 [[]] hA (by simp)]
  have hj0 : joinLines [[]] = [] := rfl
  rw [hj0]
  rw [joinLines_cons_of_ne_nil ("Demos:".data) _ (by simp)]
  rw [joinLines_cons_of_ne_nil [] _ hB]
  simp [demosKeyChars, List.append_assoc]

/-- C7 (amended): for a component whose processed description (the
`computeApiDescription` output `cad api.description`) is non-empty, trimmed,
contains no `Demos:`/`API:` trailer marker, does not end in `Demos:` or
`API:`, and is a fixed point of the processing, stripping the generated
annotation block recovers the processed description exactly — so running the
annotation a second time on the already annotated content produces the same
result as running it once.  (The suffix proviso is necessary: see the
counterexample for descriptions ending in `Demos:`.) -/
theorem annotate_strip_idempotent_unless_marker_suffix (cad : String → String)
    (api : ReactApiModel)
    (ht : (cad api.description).data ≠ [])
    (htrim : trimChars (cad api.description).data = (cad api.description).data)
    (hocc : trailerIndex (cad api.description).data = none)
    (hD : ¬ demosKeyChars <:+ (cad api.description).data)
    (hA : ¬ apiKeyChars <:+ (cad api.description).data)
    (hcad : cad (cad api.description) = cad api.description) :
    stripAnnotatedDescription (annotationMarkdown cad api) = cad api.description ∧
    annotationMarkdown cad { api with description := stripAnnotatedDescription (annotationMarkdown cad api) } =
      annotationMarkdown cad api := by
  have hlastline : (splitNl (cad api.description).data).getLastD [] ≠ [] := by
    apply splitNl_getLastD_ne_nil _ ht
    intro c hc heq
    have hws := trim_fixed_getLast _ htrim c hc
    rw [heq] at hws
    simp [jsIsWs] at hws
  have hshape : (annotationMarkdown cad api).data =
      (cad api.description).data ++ '\n' :: '\n' ::
        (demosKeyChars ++ '\n' :: '\n' ::
          joinLines ((api.demos.map fun demo =>
              ("- [" ++ demo.demoPageTitle ++ "](" ++ absUrl demo.demoPathname ++ ")").data) ++
            [[]] ++ ["API:".data, []] ++
            [("- [" ++ api.name ++ " API](" ++ absUrl api.apiPathname ++ ")").data] ++
            (match api.inheritance with
             | some inh =>
               [("- inherits [" ++ inh.name ++ " API](" ++ absUrl inh.apiPathname ++ ")").data]
             | none => []))) := by
    show joinLines (annotationLines cad api) = _
    simp only [annotationLines]
    rw [if_pos hlastline]
    rw [joinLines_annotation_shape _ _ _ _ (splitNl_ne_nil _), joinLines_splitNl]
  set R2 := joinLines ((api.demos.map fun demo =>
      ("- [" ++ demo.demoPageTitle ++ "](" ++ absUrl demo.demoPathname ++ ")").data) ++
    [[]] ++ ["API:".data, []] ++
    [("- [" ++ api.name ++ " API](" ++ absUrl api.apiPathname ++ ")").data] ++
    (match api.inheritance with
     | some inh =>
       [("- inherits [" ++ inh.name ++ " API](" ++ absUrl inh.apiPathname ++ ")").data]
     | none => [])) with hR2
  have hT := hshape
  have hsuffAt : ∀ s, s <:+ (cad api.description).data → s ≠ [] →
      trailerAt (s ++ '\n' :: '\n' :: (demosKeyChars ++ '\n' :: '\n' :: R2)) = false := by
    intro s hs hne
    apply trailerAt_append_false
    · exact trailerIndex_none_suffix _ hocc s hs
    · intro c hc
      apply trim_fixed_getLast _ htrim c
      rcases hs with ⟨u, hu⟩
      rw [← hu, List.getLast?_append_of_ne_nil _ hne]
      exact hc
    · intro hcon
      exact hD (hcon.trans hs)
    · intro hcon
      exact hA (hcon.trans hs)
  have hidx : trailerIndex (annotationMarkdown cad api).data =
      some ((cad api.description).data.length + 2) := by
    rw [hT]
    exact trailerIndex_append_demos _ _ hsuffAt
  have hstrip : stripAnnotatedDescription (annotationMarkdown cad api) =
      cad api.description := by
    have htake : ((cad api.description).data ++ '\n' :: '\n' ::
        (demosKeyChars ++ '\n' :: '\n' :: R2)).take
          ((cad api.description).data.length + 2) =
        (cad api.description).data ++ ['\n', '\n'] := by
      rw [List.take_append_eq_append_take]
      rw [List.take_of_length_le (by omega)]
      congr 1
      rw [Nat.add_sub_cancel_left]
      rfl
    have h1 : stripAnnotatedDescription (annotationMarkdown cad api) =
        ⟨trimChars ((annotationMarkdown cad api).data.take
          ((cad api.description).data.length + 2))⟩ := by
      unfold stripAnnotatedDescription
      rw [hidx]
    rw [h1, hT, htake, trimChars_append_nls _ ht htrim]
  refine ⟨hstrip, ?_⟩
  rw [hstrip]
  simp [annotationMarkdown, annotationLines, hcad]

def annotateCexApi : ReactApiModel :=
  { name := "N"
    apiPathname := "/api/n/"
    description := "Header Demos:"
    demos := [{ demoPageTitle := "X", demoPathname := "/x/" }] }

/-- C7 counterexample: the strip-then-annotate step is not idempotent for
every description — a (stripped) description ending in the literal `Demos:`
merges with the blank line inserted by the annotation into a trailer match,
so the second run truncates it and produces a different annotation. -/
theorem annotate_strip_not_idempotent_counterexample :
    annotationMarkdown id { annotateCexApi with description := stripAnnotatedDescription (annotationMarkdown id annotateCexApi) } ≠
      annotationMarkdown id annotateCexApi := by
  decide

def annotateWitnessApi : ReactApiModel :=
  { name := "Chip"
    apiPathname := "/api/chip/"
    description := "A small chip."
    demos := [{ demoPageTitle := "Chips", demoPathname := "/chips/" }] }

theorem annotate_strip_idempotent_unless_marker_suffix_witness :
    stripAnnotatedDescription (annotationMarkdown id annotateWitnessApi) =
      id annotateWitnessApi.description ∧
    annotationMarkdown id { annotateWitnessApi with description := stripAnnotatedDescription (annotationMarkdown id annotateWitnessApi) } =
      annotationMarkdown id annotateWitnessApi :=
  annotate_strip_idempotent_unless_marker_suffix id annotateWitnessApi
    (by decide) (by decide) (by decide) (by decide) (by decide) (by decide)
